import Mathlib

/-!
# MQTT client session supervisor (`mqtt_client.c`)

A shallow embedding of `src/lwip/mqtt_cli/src/mqtt_client.c`.

* Calls into the MQTT engine, FreeRTOS and the C library are recorded, in program
  order, as an effect trace (`Effect`).
* What an external call returns is supplied by `Env`, as a function of the trace up
  to and including that call.
* Constants of headers that are not part of the sources are fields of `Consts`; every
  theorem holds for all their values.
* C strings and byte buffers are lists of bytes (`List Nat`): the bytes of the object
  from the pointer on.  A read that runs off the object is undefined behaviour; the
  functions that can do so return `Option`, with `none` for undefined behaviour.
* `NVIC_SystemReset` restarts the processor and does not return: the run ends there
  (`World.halted`), and the statements that follow it in the source have no effect.
* The loop of `mqtt_client_connection_thread` never exits.  It is run on a finite list
  of queue deliveries, one per `xQueueReceive`, up to the receive that finds the queue
  empty and blocks.
* The opaque `client` and `arg` pointers, which are only forwarded, are not modelled.
* `itoa` works on mathematical integers; its digit loop is the list of its passes, and
  the bytes it writes through `ptr` are collected as a list.
-/

namespace MqttClient

/-! ## Types and constants -/

/-- The lwIP error type `err_t`. -/
abbrev err_t := Int

/-- The lwIP enum `mqtt_connection_status_t`, by its integer value. -/
abbrev mqtt_connection_status_t := Nat

/-- A FreeRTOS task handle; `none` is `NULL`. -/
abbrev xTaskHandle := Option Nat

/-- The struct `messageMqtt_t` of `mqtt_client.h`; `topic` and `payload` are the bytes
the two `char*` fields point to. -/
structure messageMqtt_t where
  qos : Nat
  retain : Nat
  topic : List Nat
  payload : List Nat
deriving DecidableEq, Repr

/-- Modelled from the spec: the state enum of the supervisor, whose typedef is not in
the sources ("ConnectionState: enum {Connecting, Connected}"). -/
inductive mqttConnState_t where
  | MQTT_IS_CONNECTING
  | MQTT_IS_CONNECTED
deriving DecidableEq, Repr

/-- Constants and macros the code uses whose definitions are not in the sources. -/
structure Consts where
  ERR_OK : err_t
  MQTT_CONNECT_ACCEPTED : mqtt_connection_status_t
  MQTT_CONNECT_DISCONNECTED : mqtt_connection_status_t
  MQTT_DATA_FLAG_LAST : Nat
  MAX_CONNECT_TRIES : Nat

/-- The functions of `mqtt_client.c` that are passed as callbacks. -/
inductive Callback where
  | mqtt_pub_request_cb
  | mqtt_sub_request_cb
  | mqtt_connection_cb
  | mqtt_incoming_publish_cb
  | mqtt_incoming_data_cb
  | mqtt_client_test_thread
deriving DecidableEq, Repr

/-- An argument of a `printf` call. -/
inductive printf_arg where
  | int (v : Int)
  | str (s : List Nat)
deriving DecidableEq, Repr

/-- The externally visible actions of the code: calls that leave `mqtt_client.c`, and
reads of the incoming payload buffer (`read i` is a read of `data[i]`). -/
inductive Effect where
  | printf (fmt : String) (args : List printf_arg)
  | mqtt_publish (topic payload : List Nat) (payload_length qos retain : Nat)
      (cb : Callback)
  | NVIC_SystemReset
  | mqtt_disconnect
  | mqtt_set_inpub_callback (pub_cb data_cb : Callback)
  | mqtt_subscribe (topic : List Nat) (qos : Nat) (cb : Callback)
  | xQueueSend (status : mqtt_connection_status_t)
  | xQueueReceive (item : Option mqtt_connection_status_t)
  | sys_thread_new (name : String) (thread : Callback) (ret : xTaskHandle)
  | vTaskDelete (h : Nat)
  | mqtt_client_connect (client_id : List Nat) (ip_addr : List Nat) (port : Nat)
      (cb : Callback)
  | xQueueCreate (uxQueueLength : Nat)
  | mqtt_client_new (ret : Option Nat)
  | read (i : Int)
deriving DecidableEq, Repr

/-- What the external calls return.  Each field gets the trace up to and including the
call it answers; `sys_thread_new`, whose effect records the handle returned, gets the
trace before the call. -/
structure Env where
  mqtt_publish : List Effect → err_t
  mqtt_subscribe : List Effect → err_t
  mqtt_client_connect : List Effect → err_t
  sys_thread_new : List Effect → xTaskHandle

/-- The world outside the function being run: the effects so far, and whether
`NVIC_SystemReset` has been executed.  `NVIC_SystemReset` does not return, so once
`halted` is set nothing more happens. -/
structure World where
  trace : List Effect
  halted : Bool
deriving DecidableEq, Repr

/-- The world at the start of a run. -/
def World.init : World := ⟨[], false⟩

/-- Perform one effect, unless the system has been reset. -/
def emit (e : Effect) (w : World) : World :=
  if w.halted then w else { w with trace := w.trace ++ [e] }

/-- The call `NVIC_SystemReset()`: recorded, and nothing runs after it. -/
def NVIC_SystemReset (w : World) : World :=
  if w.halted then w else { trace := w.trace ++ [Effect.NVIC_SystemReset], halted := true }

/-! ## C library -/

/-- The bytes of a string literal, with its terminator. -/
def lit (s : String) : List Nat := s.toList.map Char.toNat ++ [0]

/-- The bytes of the C string at the start of `p`, without the terminator; `none` when
`p` has no zero byte. -/
def c_str : List Nat → Option (List Nat)
  | [] => none
  | b :: rest => if b = 0 then some [] else (c_str rest).map (fun s => b :: s)

/-- The C library's `strlen`. -/
def strlen (p : List Nat) : Option Nat := (c_str p).map List.length

/-- The C library's `strcmp`: the difference of the first two bytes that differ, `0`
when the strings are equal. -/
def strcmp : List Nat → List Nat → Option Int
  | a :: as, b :: bs =>
    if a ≠ b then some ((a : Int) - (b : Int))
    else if a = 0 then some 0
    else strcmp as bs
  | _, _ => none

/-! ## Publish gateway and callbacks -/

/-- Source: `mqtt_pub_request_cb`. -/
def mqtt_pub_request_cb (K : Consts) (result : err_t) (w : World) : World :=
  if result ≠ K.ERR_OK then
    emit (Effect.printf "Publish result: %d\n" [printf_arg.int result]) w
  else w

/-- Source: `mqtt_sub_request_cb`. -/
def mqtt_sub_request_cb (result : err_t) (w : World) : World :=
  emit (Effect.printf "Subscribe result: %d\n" [printf_arg.int result]) w

/-- Source: `mqtt_connection_cb`. -/
def mqtt_connection_cb (K : Consts) (env : Env) (status : mqtt_connection_status_t)
    (w : World) : World :=
  let w :=
    if status = K.MQTT_CONNECT_ACCEPTED then
      let w := emit (Effect.printf "mqtt_connection_cb: Successfully connected\n" []) w
      let w := emit (Effect.mqtt_set_inpub_callback Callback.mqtt_incoming_publish_cb
        Callback.mqtt_incoming_data_cb) w
      let w := emit (Effect.mqtt_subscribe (lit "PW/V2/CIAA_NXP/RQ/#") 0
        Callback.mqtt_sub_request_cb) w
      let err := env.mqtt_subscribe w.trace
      if err ≠ K.ERR_OK then
        emit (Effect.printf "mqtt_subscribe return: %d\n" [printf_arg.int err]) w
      else w
    else
      emit (Effect.printf "mqtt_connection_cb: Disconnected, reason: %d\n"
        [printf_arg.int status]) w
  emit (Effect.xQueueSend status) w

/-- The conversion of an unsigned value to `u16_t`, the type of the `payload_length`
parameter of lwIP's `mqtt_publish`: the value modulo 65536. -/
def to_u16 (n : Nat) : Nat := n % 65536

/-- Source: `mqtt_client_publish`.  `arg` is the message `arg` points to, `none` for a
null pointer; the result holds the message after the call.  The result of `strlen` is
converted to the `u16_t` parameter `payload_length` at the call of `mqtt_publish`. -/
def mqtt_client_publish (K : Consts) (env : Env) (arg : Option messageMqtt_t)
    (w : World) : Option (Option messageMqtt_t × World) :=
  let submitted : Option (err_t × World) :=
    match arg with
    | none => some (K.ERR_OK, w)
    | some msg =>
      match strlen msg.payload with
      | none => none
      | some n =>
        let w := emit (Effect.mqtt_publish msg.topic msg.payload (to_u16 n) msg.qos
          msg.retain Callback.mqtt_pub_request_cb) w
        some (env.mqtt_publish w.trace, w)
  match submitted with
  | none => none
  | some (err, w) =>
    if err ≠ K.ERR_OK then
      let w := NVIC_SystemReset w
      let w := emit Effect.mqtt_disconnect w
      let w := mqtt_connection_cb K env K.MQTT_CONNECT_DISCONNECTED w
      let w := emit (Effect.printf "Publish err: %d\n" [printf_arg.int err]) w
      some (arg, w)
    else some (arg, w)

/-! ## Topic demultiplexer -/

/-- A pointer `obj + off` into the byte object `obj`. -/
structure u8_ptr where
  obj : List Nat
  off : Nat
deriving DecidableEq, Repr

/-- The byte `p[i]`; `none` when it lies outside the object. -/
def u8_ptr.get (p : u8_ptr) (i : Int) : Option Nat :=
  if 0 ≤ (p.off : Int) + i then p.obj[((p.off : Int) + i).toNat]? else none

/-- The reads `printf` makes for a `%s` argument whose string has `n` bytes: the bytes
and the terminator. -/
def stringReads (n : Nat) : List Effect :=
  (List.range (n + 1)).map (fun i : Nat => Effect.read (Int.ofNat i))

/-- Source: `mqtt_incoming_data_cb`.  The first argument is the static `inpub_id`;
the result holds `inpub_id` after the call and the effects of the call. -/
def mqtt_incoming_data_cb (K : Consts) (inpub_id : Int) (data : u8_ptr) (len flags : Nat) :
    Option (Int × List Effect) :=
  let out := [Effect.printf "Incoming publish payload with length %d, flags %u\n"
    [printf_arg.int len, printf_arg.int flags]]
  if flags &&& K.MQTT_DATA_FLAG_LAST ≠ 0 then
    if inpub_id = 0 then
      let out := out ++ [Effect.read ((len : Int) - 1)]
      match data.get ((len : Int) - 1) with
      | none => none
      | some b =>
        if b = 0 then
          match c_str (data.obj.drop data.off) with
          | none => none
          | some s =>
            some (inpub_id, out ++ stringReads s.length ++
              [Effect.printf "mqtt_incoming_data_cb: %s\n" [printf_arg.str s]])
        else some (inpub_id, out)
    else if inpub_id = 1 then some (inpub_id, out)
    else
      some (inpub_id, out ++ [Effect.printf "mqtt_incoming_data_cb: Ignoring payload...\n" []])
  else some (inpub_id, out)

/-- Source: `mqtt_incoming_publish_cb`.  The first argument is the static `inpub_id`
before the call; the result holds `inpub_id` after the call and the effects. -/
def mqtt_incoming_publish_cb (_inpub_id : Int) (topic : List Nat) (tot_len : Nat) :
    Option (Int × List Effect) :=
  match c_str topic with
  | none => none
  | some s =>
    let out := [Effect.printf "Incoming publish at topic %s with total length %u\n"
      [printf_arg.str s, printf_arg.int tot_len]]
    match strcmp topic (lit "print_payload") with
    | none => none
    | some r =>
      if r = 0 then some (0, out)
      else
        match topic with
        | [] => none
        | c :: _ => if c = 'A'.toNat then some (1, out) else some (2, out)

/-! ## Connection supervisor -/

/-- Source: the macro `MQTT_PORT` of `mqtt_client.h`. -/
def MQTT_PORT : Nat := 1883

/-- Source: `mqtt_client_do_connect`. -/
def mqtt_client_do_connect (K : Consts) (env : Env) (w : World) : World :=
  let w := emit (Effect.mqtt_client_connect (lit "lwip_test") [142, 93, 0, 227] MQTT_PORT
    Callback.mqtt_connection_cb) w
  let err := env.mqtt_client_connect w.trace
  if err ≠ K.ERR_OK then
    emit (Effect.printf "mqtt_connect return %d\n" [printf_arg.int err]) w
  else w

/-- The local variables of `mqtt_client_connection_thread` that the loop changes.
`numConnectTries` is a `uint8_t`. -/
structure Supervisor where
  mqtt_client_test_handler : xTaskHandle
  mqttConnState : mqttConnState_t
  numConnectTries : Nat
deriving DecidableEq, Repr

/-- The values the locals are initialised with. -/
def Supervisor.init : Supervisor :=
  ⟨none, mqttConnState_t.MQTT_IS_CONNECTING, 0⟩

/-- The `switch (mqttConnState)` statement of the loop body. -/
def loop_switch (K : Consts) (env : Env) (sw : Supervisor × World) : Supervisor × World :=
  let s := sw.1
  let w := sw.2
  match s.mqttConnState with
  | mqttConnState_t.MQTT_IS_CONNECTED =>
    let s := { s with numConnectTries := 0 }
    let h := env.sys_thread_new w.trace
    let w := emit (Effect.sys_thread_new "mqtt_client_test_thread"
      Callback.mqtt_client_test_thread h) w
    ({ s with mqtt_client_test_handler := h }, w)
  | mqttConnState_t.MQTT_IS_CONNECTING =>
    let w :=
      match s.mqtt_client_test_handler with
      | some h => emit (Effect.vTaskDelete h) w
      | none => w
    let tries := s.numConnectTries
    let s := { s with numConnectTries := (tries + 1) % 256 }
    if tries < K.MAX_CONNECT_TRIES then (s, mqtt_client_do_connect K env w)
    else (s, NVIC_SystemReset w)

/-- The rest of the loop body: `xQueueReceive` and the state update.  `item` is what the
call delivers: `some reportedStatus` when it returns `pdTRUE`, `none` otherwise. -/
def loop_receive (K : Consts) (item : Option mqtt_connection_status_t)
    (sw : Supervisor × World) : Supervisor × World :=
  let s := sw.1
  let w := emit (Effect.xQueueReceive item) sw.2
  match item with
  | some reportedStatus =>
    if reportedStatus = K.MQTT_CONNECT_ACCEPTED then
      ({ s with mqttConnState := mqttConnState_t.MQTT_IS_CONNECTED }, w)
    else
      ({ s with mqttConnState := mqttConnState_t.MQTT_IS_CONNECTING }, w)
  | none => (s, w)

/-- As many complete passes through the body of `while (1)` as `queue` has items, one
item per `xQueueReceive`; the run ends early at a reset. -/
def loop_iterations (K : Consts) (env : Env) :
    List (Option mqtt_connection_status_t) → Supervisor × World → Supervisor × World
  | [], sw => sw
  | item :: queue, sw =>
    let sw1 := loop_switch K env sw
    if sw1.2.halted then sw1 else loop_iterations K env queue (loop_receive K item sw1)

/-- The loop `while (1)` run on the items of `queue` and then up to the
`xQueueReceive` that finds the queue empty, where it blocks (`portMAX_DELAY`). -/
def supervisor_loop (K : Consts) (env : Env) (queue : List (Option mqtt_connection_status_t))
    (sw : Supervisor × World) : Supervisor × World :=
  let sw1 := loop_iterations K env queue sw
  if sw1.2.halted then sw1 else loop_switch K env sw1

/-- Source: `mqtt_client_connection_thread`.  `client` is what `mqtt_client_new` returns
(`none` for `NULL`) and `queue` what the successive `xQueueReceive` calls deliver. -/
def mqtt_client_connection_thread (K : Consts) (env : Env) (client : Option Nat)
    (queue : List (Option mqtt_connection_status_t)) : Supervisor × World :=
  let w := emit (Effect.xQueueCreate 4) World.init
  let w := emit (Effect.mqtt_client_new client) w
  if client ≠ none then supervisor_loop K env queue (Supervisor.init, w)
  else (Supervisor.init, w)

/-! ## `itoa` -/

/-- The string literal `itoa` takes its digits from: 71 characters, `'0'` in the middle
at index 35. -/
def digitTable : List Nat :=
  "zyxwvutsrqponmlkjihgfedcba9876543210123456789abcdefghijklmnopqrstuvwxyz".toList.map
    Char.toNat

/-- The character `digitTable[i]`; 0 stands for a read outside the literal. -/
def tableAt (i : Int) : Nat := if 0 ≤ i then digitTable.getD i.toNat 0 else 0

/-- One pass through the body of the `do` loop of `itoa`: `tmp_value` as assigned at its
start, `value` after the division, and the index into the digit table. -/
structure itoa_pass where
  tmp_value : Int
  value : Int
  index : Int
deriving DecidableEq, Repr

/-- The `do ... while (value)` loop of `itoa`, as the list of its passes in order.  The
division is C's, truncating toward zero.  The loop is entered only with a base that has
passed the check `base < 2 || base > 36`. -/
def itoa_loop (base : Int) (hb : 2 ≤ base) (value : Int) : List itoa_pass :=
  let tmp_value := value
  let value := tmp_value.tdiv base
  let index := 35 + (tmp_value - value * base)
  if _hv : value ≠ 0 then
    ⟨tmp_value, value, index⟩ :: itoa_loop base hb value
  else [⟨tmp_value, value, index⟩]
termination_by value.natAbs
decreasing_by
  simp_wf
  rename_i v
  have hv : 0 < v.natAbs := by
    rcases Nat.eq_zero_or_pos v.natAbs with h0 | h0
    · have hz : v = 0 := Int.natAbs_eq_zero.mp h0
      have : v.tdiv base = 0 := by rw [hz]; exact Int.zero_tdiv base
      exact absurd this _hv
    · exact h0
  have hk : 1 < base.natAbs := by omega
  exact Nat.div_lt_self hv hk

/-- The loop `while (ptr1 < ptr)` of `itoa`, which swaps `*ptr` and `*ptr1` and moves the
two pointers toward each other; `ptr1` and `ptr` are offsets into `buf`. -/
def itoa_reverse (buf : List Nat) (ptr1 ptr : Nat) : List Nat :=
  if ptr1 < ptr then
    let tmp_char := buf.getD ptr 0
    let buf := buf.set ptr (buf.getD ptr1 0)
    let buf := buf.set ptr1 tmp_char
    itoa_reverse buf (ptr1 + 1) (ptr - 1)
  else buf
termination_by ptr - ptr1

/-- What `itoa` leaves behind: the bytes it has written from `result[0]` on, and the
pointer it returns, as an offset from `result`. -/
structure itoa_result where
  written : List Nat
  returned : Nat
deriving DecidableEq, Repr

/-- Source: `itoa`.  The writes go through `ptr`, which starts at `result` and moves up
by one with each write, so they are collected as a list. -/
def itoa (value : Int) (base : Int) : itoa_result :=
  if h : base < 2 ∨ base > 36 then
    ⟨[0], 0⟩
  else
    let passes := itoa_loop base (by omega) value
    let buf := passes.map (fun p => tableAt p.index)
    let tmp_value := (passes.getLast?.map (fun p => p.tmp_value)).getD 0
    let buf := if tmp_value < 0 then buf ++ ['-'.toNat] else buf
    let buf := buf ++ [0]
    ⟨itoa_reverse buf 0 (buf.length - 2), 0⟩

/-- The least value of a 32-bit `int`. -/
def INT_MIN : Int := -2147483648

/-- The greatest value of a 32-bit `int`. -/
def INT_MAX : Int := 2147483647

/-- The value fits a 32-bit `int`. -/
@[reducible] def inInt32 (x : Int) : Prop := INT_MIN ≤ x ∧ x ≤ INT_MAX

/-- The character for the digit `d`: `'0'` to `'9'`, then lowercase `'a'` to `'z'`. -/
def digitChar (d : Nat) : Nat := if d < 10 then '0'.toNat + d else 'a'.toNat + (d - 10)

/-- The string `itoa` is specified to write for `value` in base `base`, in the words of
the specification: `'-'` for a negative value, then the digits of its absolute value,
most significant first, without leading zeros, and "0" for zero. -/
def itoaText (value : Int) (base : Nat) : List Nat :=
  (if value < 0 then ['-'.toNat] else []) ++
    (if value = 0 then [digitChar 0]
     else (Nat.digits base value.natAbs).reverse.map digitChar)

/-- The digit a character stands for. -/
def digitValue (c : Nat) : Nat :=
  if '0'.toNat ≤ c ∧ c ≤ '9'.toNat then c - '0'.toNat else c - 'a'.toNat + 10

/-- Parsing an unsigned number in base `base`, most significant digit first. -/
def parseNat (base : Nat) (cs : List Nat) : Nat :=
  cs.foldl (fun acc c => acc * base + digitValue c) 0

/-- Parsing a signed number in base `base`: an optional `'-'`, then the digits. -/
def parseInt (base : Nat) (cs : List Nat) : Int :=
  match cs with
  | c :: rest => if c = '-'.toNat then -((parseNat base rest : Nat) : Int)
                 else ((parseNat base cs : Nat) : Int)
  | [] => 0

/-! ## Reading a trace, and concrete inputs -/

/-- The event an effect pops from the queue, if it pops one. -/
def poppedBy : Effect → Option mqtt_connection_status_t
  | Effect.xQueueReceive (some ev) => some ev
  | _ => none

/-- The events popped from the queue, in order. -/
def popped (t : List Effect) : List mqtt_connection_status_t := t.filterMap poppedBy

/-- Is the effect a connect attempt?  Each call of `mqtt_client_do_connect` makes exactly
one call of `mqtt_client_connect`, and nothing else calls it. -/
def isConnect : Effect → Bool
  | Effect.mqtt_client_connect _ _ _ _ => true
  | _ => false

/-- The number of connect attempts in a trace. -/
def connectAttempts (t : List Effect) : Nat := t.countP isConnect

/-- The number of calls of `NVIC_SystemReset` in a trace. -/
def resets (t : List Effect) : Nat := t.count Effect.NVIC_SystemReset

/-- The locals and the world when `mqtt_client_connection_thread` enters its loop
with a client. -/
def loopEntry (client : Nat) : Supervisor × World :=
  (Supervisor.init, ⟨[Effect.xQueueCreate 4, Effect.mqtt_client_new (some client)], false⟩)

/-- The effects of the pass through `switch (mqttConnState)` that starts in `sw`. -/
def passEffects (K : Consts) (env : Env) (sw : Supervisor × World) : List Effect :=
  (loop_switch K env sw).2.trace.drop sw.2.trace.length

/-- The publisher tasks that are live after one more effect: a successful
`sys_thread_new` adds its task, `vTaskDelete` removes the task it is given. -/
def liveAfter (live : List Nat) : Effect → List Nat
  | Effect.sys_thread_new _ _ (some h) => live ++ [h]
  | Effect.vTaskDelete h => live.filter (fun x => x ≠ h)
  | _ => live

/-- The publisher tasks live at the end of a trace. -/
def liveTasks (t : List Effect) : List Nat := t.foldl liveAfter []

/-- Cancel-before-spawn ordering of a trace: whenever a publisher is spawned at position
`i`, a later `sys_thread_new` happens at position `j`, and an event other than
`MQTT_CONNECT_ACCEPTED` is popped between the two, the task spawned at `i` is deleted
between the two. -/
def CancelBeforeSpawn (K : Consts) (t : List Effect) : Prop :=
  ∀ (i j m h : Nat) (ev : mqtt_connection_status_t) (ret : xTaskHandle),
    t[i]? = some (Effect.sys_thread_new "mqtt_client_test_thread"
      Callback.mqtt_client_test_thread (some h)) →
    t[j]? = some (Effect.sys_thread_new "mqtt_client_test_thread"
      Callback.mqtt_client_test_thread ret) →
    i < m → m < j → t[m]? = some (Effect.xQueueReceive (some ev)) →
    ev ≠ K.MQTT_CONNECT_ACCEPTED →
    ∃ d, i < d ∧ d < j ∧ t[d]? = some (Effect.vTaskDelete h)

/-- The locals and the world after `MQTT_CONNECT_ACCEPTED` has been popped in `sw` and
the loop pass that follows has run. -/
def afterAccepted (K : Consts) (env : Env) (sw : Supervisor × World) : Supervisor × World :=
  loop_switch K env (loop_receive K (some K.MQTT_CONNECT_ACCEPTED) sw)

/-- The declared fragment of an incoming payload: the `len` bytes from `data` on. -/
def fragment (data : u8_ptr) (len : Nat) : List Nat := (data.obj.drop data.off).take len

/-- The text of a buffer: its bytes up to the first zero byte. -/
def textOf (l : List Nat) : List Nat := l.takeWhile (fun x => x != 0)

/-- Is the effect a call of the engine's `mqtt_publish`? -/
def isPublish : Effect → Bool
  | Effect.mqtt_publish _ _ _ _ _ _ => true
  | _ => false

/-- The calls of `mqtt_publish` in a trace, in order. -/
def publishCalls (t : List Effect) : List Effect := t.filter isPublish

/-- The call of `mqtt_publish` that forwards `msg`: its topic, its payload, the length
of the payload's text as a `u16_t`, its qos and retain flags, and
`mqtt_pub_request_cb`. -/
def forwardOf (msg : messageMqtt_t) : Effect :=
  Effect.mqtt_publish msg.topic msg.payload (to_u16 (textOf msg.payload).length) msg.qos
    msg.retain Callback.mqtt_pub_request_cb

/-- The events of a queue: the items of the successful receives. -/
def events (queue : List (Option mqtt_connection_status_t)) :
    List mqtt_connection_status_t := queue.filterMap id

/-- The loop invariant behind the state claims: the state is `MQTT_IS_CONNECTED` exactly
when the last event popped so far is `MQTT_CONNECT_ACCEPTED`. -/
def StateTracks (K : Consts) (sw : Supervisor × World) : Prop :=
  sw.1.mqttConnState = mqttConnState_t.MQTT_IS_CONNECTED ↔
    (popped sw.2.trace).getLast? = some K.MQTT_CONNECT_ACCEPTED

/-- The characters of a string, as bytes. -/
def bytes (s : String) : List Nat := s.toList.map Char.toNat

/-- The constants of lwIP and the board configuration the spec mentions
(`MAX_CONNECT_TRIES = 10`). -/
def lwipConsts : Consts :=
  { ERR_OK := 0, MQTT_CONNECT_ACCEPTED := 0, MQTT_CONNECT_DISCONNECTED := 256,
    MQTT_DATA_FLAG_LAST := 1, MAX_CONNECT_TRIES := 10 }

/-- An environment in which every engine call succeeds and the task created by the
`n`-th effect of the run has handle `n`. -/
def okEnv : Env :=
  { mqtt_publish := fun _ => 0, mqtt_subscribe := fun _ => 0,
    mqtt_client_connect := fun _ => 0, sys_thread_new := fun t => some t.length }

/-- An environment in which `mqtt_publish` fails with -11 (`ERR_CONN` in lwIP). -/
def downEnv : Env :=
  { mqtt_publish := fun _ => -11, mqtt_subscribe := fun _ => 0,
    mqtt_client_connect := fun _ => 0, sys_thread_new := fun t => some t.length }

/-- The first message of the publisher task: topic "PW/V2/CIAA_NXP/NY/TEST", payload
"TEST:CONNECTED", qos 0, not retained. -/
def testMsg : messageMqtt_t :=
  ⟨0, 0, lit "PW/V2/CIAA_NXP/NY/TEST", lit "TEST:CONNECTED"⟩

/-- The count of connect attempts since the last pass through `MQTT_IS_CONNECTED`, after
one more effect: the `sys_thread_new` of that pass clears it, a connect attempt adds
one. -/
def countAfter (n : Nat) : Effect → Nat
  | Effect.sys_thread_new _ _ _ => 0
  | Effect.mqtt_client_connect _ _ _ _ => n + 1
  | _ => n

/-- The number of connect attempts in a trace since the loop last passed through
`MQTT_IS_CONNECTED`, or since the start. -/
def attemptsSince (t : List Effect) : Nat := t.foldl countAfter 0

/-- What holds of the counter at every point of the loop between a switch and a receive:
before a reset it is at most the bound and equals the attempts made, modulo 256; the
pass that resets has added one more. -/
def CounterInv (K : Consts) (sw : Supervisor × World) : Prop :=
  (sw.2.halted = false →
    sw.1.numConnectTries ≤ K.MAX_CONNECT_TRIES ∧
    sw.1.numConnectTries = attemptsSince sw.2.trace % 256 ∧
    (K.MAX_CONNECT_TRIES ≤ 255 → sw.1.numConnectTries = attemptsSince sw.2.trace)) ∧
  (sw.2.halted = true →
    sw.1.numConnectTries = (attemptsSince sw.2.trace + 1) % 256 ∧
    K.MAX_CONNECT_TRIES ≤ attemptsSince sw.2.trace % 256)

/-- A configuration with a bound the 8-bit counter cannot hold. -/
def wideConsts : Consts :=
  { ERR_OK := 0, MQTT_CONNECT_ACCEPTED := 0, MQTT_CONNECT_DISCONNECTED := 256,
    MQTT_DATA_FLAG_LAST := 1, MAX_CONNECT_TRIES := 300 }

/-- The route tags under which successive payload fragments `(data, len, flags)` are
dispatched when the route slot holds `inpub_id` before the first of them: the value of
the slot at each call of `mqtt_incoming_data_cb`, up to a call that is undefined. -/
def fragmentTags (K : Consts) : Int → List (u8_ptr × Nat × Nat) → List Int
  | _, [] => []
  | inpub_id, (data, len, flags) :: rest =>
    inpub_id ::
      (match mqtt_incoming_data_cb K inpub_id data len flags with
       | some r => fragmentTags K r.1 rest
       | none => [])

/-- The fragment is one the callback can handle without undefined behaviour: it is not
dispatched to the PRINT route as a last fragment, or it is non-empty and lies inside
its buffer. -/
@[reducible] def WellFormedFragment (K : Consts) (inpub_id : Int) (data : u8_ptr) (len flags : Nat) :
    Prop :=
  flags &&& K.MQTT_DATA_FLAG_LAST = 0 ∨ inpub_id ≠ 0 ∨
    (1 ≤ len ∧ data.off + len ≤ data.obj.length)

/-- The event an effect pushes onto the queue, if it pushes one. -/
def sentBy : Effect → Option mqtt_connection_status_t
  | Effect.xQueueSend status => some status
  | _ => none

/-- The events pushed onto the queue, in order. -/
def sends (t : List Effect) : List mqtt_connection_status_t := t.filterMap sentBy

/-- Is the effect a call of the engine's `mqtt_subscribe`? -/
def isSubscribe : Effect → Bool
  | Effect.mqtt_subscribe _ _ _ => true
  | _ => false

/-- The number of calls of `mqtt_subscribe` in a trace. -/
def subscribes (t : List Effect) : Nat := t.countP isSubscribe

/-- The effects `mqtt_connection_cb` adds to the world `w` for `status`. -/
def connectionCbEffects (K : Consts) (env : Env) (status : mqtt_connection_status_t)
    (w : World) : List Effect :=
  (mqtt_connection_cb K env status w).trace.drop w.trace.length

/-- The deletion the `MQTT_IS_CONNECTING` branch starts with: of the handle held, if
there is one. -/
def heldDelete (s : Supervisor) : List Effect :=
  match s.mqtt_client_test_handler with
  | some h => [Effect.vTaskDelete h]
  | none => []

/-- The call of `mqtt_client_connect` that `mqtt_client_do_connect` makes. -/
def connectCall : Effect :=
  Effect.mqtt_client_connect (lit "lwip_test") [142, 93, 0, 227] MQTT_PORT
    Callback.mqtt_connection_cb

/-- An environment in which the engine refuses every call with -4 (`ERR_RTE` in lwIP)
and tasks are created as in `okEnv`. -/
def refusingEnv : Env :=
  { mqtt_publish := fun _ => -4, mqtt_subscribe := fun _ => -4,
    mqtt_client_connect := fun _ => -4, sys_thread_new := fun t => some t.length }

/-- A supervisor that holds the handle 4 and has made no connect attempt yet, in
`MQTT_IS_CONNECTING`, at the start of a trace. -/
def holding4 : Supervisor × World :=
  (⟨some 4, mqttConnState_t.MQTT_IS_CONNECTING, 0⟩, World.init)

/-- A message whose payload has 65541 bytes before its terminator. -/
def longMsg : messageMqtt_t :=
  ⟨0, 0, lit "t", List.replicate 65541 65 ++ [0]⟩

/-! ## Basic facts about the world -/

theorem emit_running {w : World} (e : Effect) (h : w.halted = false) :
    emit e w = ⟨w.trace ++ [e], false⟩ := by
  cases w; simp_all [emit]

theorem emit_halted {w : World} (e : Effect) (h : w.halted = true) : emit e w = w := by
  simp [emit, h]

theorem emit_halted_eq (e : Effect) (w : World) : (emit e w).halted = w.halted := by
  unfold emit; split <;> simp_all

theorem popped_emit (e : Effect) (w : World) (h : poppedBy e = none) :
    popped (emit e w).trace = popped w.trace := by
  unfold emit; split <;> simp [popped, List.filterMap_append, h]

theorem popped_reset (w : World) : popped (NVIC_SystemReset w).trace = popped w.trace := by
  unfold NVIC_SystemReset; split <;> simp [popped, List.filterMap_append, poppedBy]

theorem popped_do_connect (K : Consts) (env : Env) (w : World) :
    popped (mqtt_client_do_connect K env w).trace = popped w.trace := by
  unfold mqtt_client_do_connect
  simp only []
  split <;> simp [popped_emit, poppedBy]

theorem loop_switch_state (K : Consts) (env : Env) (sw : Supervisor × World) :
    (loop_switch K env sw).1.mqttConnState = sw.1.mqttConnState := by
  unfold loop_switch
  simp only []
  split
  · simp_all
  · split <;> simp_all

theorem loop_switch_popped (K : Consts) (env : Env) (sw : Supervisor × World) :
    popped (loop_switch K env sw).2.trace = popped sw.2.trace := by
  unfold loop_switch
  simp only []
  split
  · simp [popped_emit, poppedBy]
  · split <;> split <;> simp [popped_emit, popped_reset, popped_do_connect, poppedBy]

/-! ## The state follows the last event popped -/

theorem stateTracks_switch (K : Consts) (env : Env) (sw : Supervisor × World)
    (h : StateTracks K sw) : StateTracks K (loop_switch K env sw) := by
  unfold StateTracks at *
  rw [loop_switch_state, loop_switch_popped]
  exact h

theorem loop_receive_popped (K : Consts) (item : Option mqtt_connection_status_t)
    (sw : Supervisor × World) (hrun : sw.2.halted = false) :
    popped (loop_receive K item sw).2.trace = popped sw.2.trace ++ item.toList := by
  unfold loop_receive
  cases item with
  | none => simp [emit_running _ hrun, popped, List.filterMap_append, poppedBy]
  | some ev =>
    simp only []
    split <;> simp [emit_running _ hrun, popped, List.filterMap_append, poppedBy]

theorem loop_receive_halted (K : Consts) (item : Option mqtt_connection_status_t)
    (sw : Supervisor × World) : (loop_receive K item sw).2.halted = sw.2.halted := by
  unfold loop_receive
  cases item with
  | none => simp [emit_halted_eq]
  | some ev =>
    simp only []
    split <;> simp [emit_halted_eq]

theorem stateTracks_receive (K : Consts) (item : Option mqtt_connection_status_t)
    (sw : Supervisor × World) (hrun : sw.2.halted = false) (h : StateTracks K sw) :
    StateTracks K (loop_receive K item sw) := by
  unfold StateTracks at *
  rw [loop_receive_popped K item sw hrun]
  cases item with
  | none => simpa [loop_receive] using h
  | some ev =>
    by_cases hev : ev = K.MQTT_CONNECT_ACCEPTED
    · simp [loop_receive, hev, List.getLast?_append]
    · simp [loop_receive, hev, List.getLast?_append]

theorem loop_iterations_tracks (K : Consts) (env : Env)
    (queue : List (Option mqtt_connection_status_t)) :
    ∀ sw : Supervisor × World, sw.2.halted = false → StateTracks K sw →
      StateTracks K (loop_iterations K env queue sw) ∧
      ∃ pre, pre <+: events queue ∧
        popped (loop_iterations K env queue sw).2.trace = popped sw.2.trace ++ pre ∧
        ((loop_iterations K env queue sw).2.halted = false → pre = events queue) := by
  induction queue with
  | nil =>
    intro sw _ h
    exact ⟨h, [], by simp [events], by simp [loop_iterations], by simp [events]⟩
  | cons item queue ih =>
    intro sw hrun h
    have hs := stateTracks_switch K env sw h
    by_cases hh : (loop_switch K env sw).2.halted = true
    · have e : loop_iterations K env (item :: queue) sw = loop_switch K env sw := by
        simp [loop_iterations, hh]
      rw [e]
      refine ⟨hs, [], List.nil_prefix, by simp [loop_switch_popped], ?_⟩
      intro hcontra
      simp [hh] at hcontra
    · simp only [Bool.not_eq_true] at hh
      have e : loop_iterations K env (item :: queue) sw =
          loop_iterations K env queue (loop_receive K item (loop_switch K env sw)) := by
        simp [loop_iterations, hh]
      rw [e]
      have hr := stateTracks_receive K item _ hh hs
      have hrh : (loop_receive K item (loop_switch K env sw)).2.halted = false := by
        rw [loop_receive_halted]; exact hh
      obtain ⟨h1, pre, hp1, hp2, hp3⟩ := ih _ hrh hr
      refine ⟨h1, item.toList ++ pre, ?_, ?_, ?_⟩
      · cases item with
        | none => simpa [events] using hp1
        | some ev =>
          simp only [events, List.filterMap_cons, id, Option.toList]
          exact (List.prefix_cons_inj ev).mpr hp1
      · rw [hp2, loop_receive_popped K item _ hh, loop_switch_popped, List.append_assoc]
      · intro hfin
        rw [hp3 hfin]
        cases item <;> simp [events]

theorem supervisor_loop_tracks (K : Consts) (env : Env)
    (queue : List (Option mqtt_connection_status_t)) (sw : Supervisor × World)
    (hrun : sw.2.halted = false) (h : StateTracks K sw) :
    StateTracks K (supervisor_loop K env queue sw) ∧
    ∃ pre, pre <+: events queue ∧
      popped (supervisor_loop K env queue sw).2.trace = popped sw.2.trace ++ pre ∧
      ((supervisor_loop K env queue sw).2.halted = false → pre = events queue) := by
  obtain ⟨h1, pre, hp1, hp2, hp3⟩ := loop_iterations_tracks K env queue sw hrun h
  unfold supervisor_loop
  simp only []
  split
  · next hh => exact ⟨h1, pre, hp1, hp2, fun hc => by simp [hh] at hc⟩
  · next hh =>
    simp only [Bool.not_eq_true] at hh
    refine ⟨stateTracks_switch K env _ h1, pre, hp1, ?_, fun _ => hp3 hh⟩
    rw [loop_switch_popped, hp2]

/-- C1: whatever the queue delivers, when the supervisor loop has processed it the state
variable is `MQTT_IS_CONNECTED` if and only if the sequence of events it popped is
non-empty and ends with `MQTT_CONNECT_ACCEPTED`, and `MQTT_IS_CONNECTING` in every other
case.  The events popped are a leading part of the events delivered, and all of them
unless the run ended in a reset. -/
theorem C1_state_follows_last_event (K : Consts) (env : Env) (client : Nat)
    (queue : List (Option mqtt_connection_status_t)) :
    ((mqtt_client_connection_thread K env (some client) queue).1.mqttConnState
        = mqttConnState_t.MQTT_IS_CONNECTED ↔
      popped (mqtt_client_connection_thread K env (some client) queue).2.trace ≠ [] ∧
      (popped (mqtt_client_connection_thread K env (some client) queue).2.trace).getLast?
        = some K.MQTT_CONNECT_ACCEPTED) ∧
    ((mqtt_client_connection_thread K env (some client) queue).1.mqttConnState
        = mqttConnState_t.MQTT_IS_CONNECTING ↔
      ¬ (popped (mqtt_client_connection_thread K env (some client) queue).2.trace ≠ [] ∧
      (popped (mqtt_client_connection_thread K env (some client) queue).2.trace).getLast?
        = some K.MQTT_CONNECT_ACCEPTED)) ∧
    popped (mqtt_client_connection_thread K env (some client) queue).2.trace
      <+: events queue ∧
    ((mqtt_client_connection_thread K env (some client) queue).2.halted = false →
      popped (mqtt_client_connection_thread K env (some client) queue).2.trace
        = events queue) := by
  have e : mqtt_client_connection_thread K env (some client) queue =
      supervisor_loop K env queue (Supervisor.init,
        ⟨[Effect.xQueueCreate 4, Effect.mqtt_client_new (some client)], false⟩) := by
    simp [mqtt_client_connection_thread, emit, World.init]
  rw [e]
  have h0 : StateTracks K (Supervisor.init,
      (⟨[Effect.xQueueCreate 4, Effect.mqtt_client_new (some client)], false⟩ : World)) := by
    simp [StateTracks, Supervisor.init, popped, poppedBy]
  obtain ⟨h1, pre, hp1, hp2, hp3⟩ := supervisor_loop_tracks K env queue _ rfl h0
  have hp2a : popped (supervisor_loop K env queue (Supervisor.init,
      ⟨[Effect.xQueueCreate 4, Effect.mqtt_client_new (some client)], false⟩)).2.trace
      = pre := by
    rw [hp2]; simp [popped, poppedBy]
  unfold StateTracks at h1
  have hne : ∀ l : List mqtt_connection_status_t,
      l.getLast? = some K.MQTT_CONNECT_ACCEPTED → l ≠ [] := by
    intro l hl hnil
    simp [hnil] at hl
  refine ⟨?_, ?_, ?_, ?_⟩
  · rw [h1]
    exact ⟨fun hl => ⟨hne _ hl, hl⟩, fun hl => hl.2⟩
  · constructor
    · intro hc hl
      rw [← h1, hc] at hl
      exact absurd hl.2 (by decide)
    · intro hn
      cases hst : (supervisor_loop K env queue (Supervisor.init,
        ⟨[Effect.xQueueCreate 4, Effect.mqtt_client_new (some client)], false⟩)).1.mqttConnState with
      | MQTT_IS_CONNECTING => rfl
      | MQTT_IS_CONNECTED =>
        exact absurd ⟨hne _ (h1.mp hst), h1.mp hst⟩ hn
  · rw [hp2a]; exact hp1
  · intro hfin
    rw [hp2a]; exact hp3 hfin

/-! ## Connect attempts and the retry bound -/

theorem thread_eq_loop (K : Consts) (env : Env) (client : Nat)
    (queue : List (Option mqtt_connection_status_t)) :
    mqtt_client_connection_thread K env (some client) queue
      = supervisor_loop K env queue (loopEntry client) := by
  simp [mqtt_client_connection_thread, emit, World.init, loopEntry]

/-- A pass in `MQTT_IS_CONNECTING` with the counter below the bound: one connect
attempt, no reset, counter incremented. -/
theorem switch_connecting_attempt (K : Consts) (env : Env) (sw : Supervisor × World)
    (hrun : sw.2.halted = false)
    (hst : sw.1.mqttConnState = mqttConnState_t.MQTT_IS_CONNECTING)
    (hlt : sw.1.numConnectTries < K.MAX_CONNECT_TRIES) :
    connectAttempts (passEffects K env sw) = 1 ∧ resets (passEffects K env sw) = 0 ∧
    (loop_switch K env sw).2.halted = false ∧
    (loop_switch K env sw).1 =
      { sw.1 with numConnectTries := (sw.1.numConnectTries + 1) % 256 } := by
  obtain ⟨⟨h, st, n⟩, ⟨t, hl⟩⟩ := sw
  simp only at hrun hst hlt
  subst hrun hst
  cases h with
  | none =>
    by_cases herr : env.mqtt_client_connect (t ++ [Effect.mqtt_client_connect
        (lit "lwip_test") [142, 93, 0, 227] MQTT_PORT Callback.mqtt_connection_cb]) = K.ERR_OK
    · simp [passEffects, loop_switch, hlt, mqtt_client_do_connect, emit, herr,
        connectAttempts, resets, isConnect]
    · simp [passEffects, loop_switch, hlt, mqtt_client_do_connect, emit, herr,
        connectAttempts, resets, isConnect]
  | some h =>
    by_cases herr : env.mqtt_client_connect (t ++ [Effect.vTaskDelete h,
        Effect.mqtt_client_connect
        (lit "lwip_test") [142, 93, 0, 227] MQTT_PORT Callback.mqtt_connection_cb]) = K.ERR_OK
    · simp [passEffects, loop_switch, hlt, mqtt_client_do_connect, emit, herr,
        connectAttempts, resets, isConnect]
    · simp [passEffects, loop_switch, hlt, mqtt_client_do_connect, emit, herr,
        connectAttempts, resets, isConnect]

/-- A pass in `MQTT_IS_CONNECTING` with the counter at or above the bound: a reset and
no connect attempt. -/
theorem switch_connecting_abort (K : Consts) (env : Env) (sw : Supervisor × World)
    (hrun : sw.2.halted = false)
    (hst : sw.1.mqttConnState = mqttConnState_t.MQTT_IS_CONNECTING)
    (hge : K.MAX_CONNECT_TRIES ≤ sw.1.numConnectTries) :
    connectAttempts (passEffects K env sw) = 0 ∧ resets (passEffects K env sw) = 1 ∧
    (loop_switch K env sw).2.halted = true := by
  obtain ⟨⟨h, st, n⟩, ⟨t, hl⟩⟩ := sw
  simp only at hrun hst hge
  subst hrun hst
  have hnlt : ¬ n < K.MAX_CONNECT_TRIES := Nat.not_lt.mpr hge
  cases h with
  | none =>
    simp [passEffects, loop_switch, hnlt, NVIC_SystemReset, emit,
      connectAttempts, resets, isConnect]
  | some h =>
    simp [passEffects, loop_switch, hnlt, NVIC_SystemReset, emit,
      connectAttempts, resets, isConnect]

theorem loop_receive_not_accepted (K : Consts) (item : Option mqtt_connection_status_t)
    (sw : Supervisor × World) (hitem : item ≠ some K.MQTT_CONNECT_ACCEPTED)
    (hst : sw.1.mqttConnState = mqttConnState_t.MQTT_IS_CONNECTING) :
    (loop_receive K item sw).1 = sw.1 := by
  obtain ⟨⟨h, st, n⟩, w⟩ := sw
  simp only at hst
  subst hst
  cases item with
  | none => simp [loop_receive]
  | some ev =>
    have hev : ev ≠ K.MQTT_CONNECT_ACCEPTED := fun hc => hitem (by rw [hc])
    simp [loop_receive, hev]

/-- While no `MQTT_CONNECT_ACCEPTED` arrives and the bound is not passed, every iteration
stays in `MQTT_IS_CONNECTING`, adds one to the 8-bit counter and leaves the handle
alone. -/
theorem loop_iterations_connecting (K : Consts) (env : Env)
    (queue : List (Option mqtt_connection_status_t)) :
    ∀ sw : Supervisor × World, sw.2.halted = false →
      sw.1.mqttConnState = mqttConnState_t.MQTT_IS_CONNECTING →
      (∀ item ∈ queue, item ≠ some K.MQTT_CONNECT_ACCEPTED) →
      sw.1.numConnectTries < 256 →
      sw.1.numConnectTries + queue.length ≤ K.MAX_CONNECT_TRIES →
      (loop_iterations K env queue sw).2.halted = false ∧
      (loop_iterations K env queue sw).1 =
        { sw.1 with numConnectTries := (sw.1.numConnectTries + queue.length) % 256 } := by
  induction queue with
  | nil =>
    intro sw hrun _ _ h8 _
    refine ⟨hrun, ?_⟩
    simp [loop_iterations, Nat.mod_eq_of_lt h8]
  | cons item queue ih =>
    intro sw hrun hst hno h8 hlen
    simp only [List.length_cons] at hlen
    have hlt : sw.1.numConnectTries < K.MAX_CONNECT_TRIES := by omega
    obtain ⟨-, -, hh, hloc⟩ := switch_connecting_attempt K env sw hrun hst hlt
    have e : loop_iterations K env (item :: queue) sw =
        loop_iterations K env queue (loop_receive K item (loop_switch K env sw)) := by
      simp [loop_iterations, hh]
    have hst1 : (loop_switch K env sw).1.mqttConnState
        = mqttConnState_t.MQTT_IS_CONNECTING := by rw [loop_switch_state]; exact hst
    have hrl := loop_receive_not_accepted K item (loop_switch K env sw)
      (hno item (List.mem_cons_self _ _)) hst1
    have hrh : (loop_receive K item (loop_switch K env sw)).2.halted = false := by
      rw [loop_receive_halted]; exact hh
    have hrs : (loop_receive K item (loop_switch K env sw)).1.mqttConnState
        = mqttConnState_t.MQTT_IS_CONNECTING := by rw [hrl]; exact hst1
    have hrn : (loop_receive K item (loop_switch K env sw)).1.numConnectTries
        = (sw.1.numConnectTries + 1) % 256 := by rw [hrl, hloc]
    obtain ⟨h1, h2⟩ := ih (loop_receive K item (loop_switch K env sw)) hrh hrs
      (fun it hit => hno it (List.mem_cons_of_mem _ hit))
      (by rw [hrn]; omega) (by rw [hrn]; omega)
    rw [e]
    refine ⟨h1, ?_⟩
    rw [h2, hrl, hloc]
    simp only [List.length_cons]
    congr 1
    omega

/-- C2: in a run of the supervisor loop from its initial state in which the queue never
delivers `MQTT_CONNECT_ACCEPTED`, and with `MAX_CONNECT_TRIES < 255`, the pass that
follows `n` iterations (pass number `n + 1`) is reached without a reset; it makes exactly
one connect attempt and no reset when `n < MAX_CONNECT_TRIES`, and it calls
`NVIC_SystemReset` once and makes no connect attempt when `n = MAX_CONNECT_TRIES`. -/
theorem C2_abort_on_attempt_after_bound (K : Consts) (env : Env) (client : Nat)
    (queue : List (Option mqtt_connection_status_t))
    (hmax : K.MAX_CONNECT_TRIES < 255)
    (hno : ∀ item ∈ queue, item ≠ some K.MQTT_CONNECT_ACCEPTED) :
    (queue.length ≤ K.MAX_CONNECT_TRIES →
      (loop_iterations K env queue (loopEntry client)).2.halted = false ∧
      mqtt_client_connection_thread K env (some client) queue
        = loop_switch K env (loop_iterations K env queue (loopEntry client))) ∧
    (queue.length < K.MAX_CONNECT_TRIES →
      connectAttempts (passEffects K env
        (loop_iterations K env queue (loopEntry client))) = 1 ∧
      resets (passEffects K env (loop_iterations K env queue (loopEntry client))) = 0) ∧
    (queue.length = K.MAX_CONNECT_TRIES →
      connectAttempts (passEffects K env
        (loop_iterations K env queue (loopEntry client))) = 0 ∧
      resets (passEffects K env (loop_iterations K env queue (loopEntry client))) = 1) := by
  have key : queue.length ≤ K.MAX_CONNECT_TRIES →
      (loop_iterations K env queue (loopEntry client)).2.halted = false ∧
      (loop_iterations K env queue (loopEntry client)).1 =
        { (loopEntry client).1 with numConnectTries := queue.length } := by
    intro hlen
    have := loop_iterations_connecting K env queue (loopEntry client) rfl rfl hno
      (by simp [loopEntry, Supervisor.init])
      (by simpa [loopEntry, Supervisor.init] using hlen)
    have hm : queue.length % 256 = queue.length := Nat.mod_eq_of_lt (by omega)
    simpa [loopEntry, Supervisor.init, hm] using this
  refine ⟨?_, ?_, ?_⟩
  · intro hlen
    obtain ⟨hh, -⟩ := key hlen
    refine ⟨hh, ?_⟩
    rw [thread_eq_loop]
    simp [supervisor_loop, hh]
  · intro hlen
    obtain ⟨hh, hloc⟩ := key (by omega)
    obtain ⟨h1, h2, -, -⟩ := switch_connecting_attempt K env _ hh
      (by rw [hloc]; rfl) (by rw [hloc]; exact hlen)
    exact ⟨h1, h2⟩
  · intro hlen
    obtain ⟨hh, hloc⟩ := key (by omega)
    obtain ⟨h1, h2, -⟩ := switch_connecting_abort K env _ hh
      (by rw [hloc]; rfl) (by rw [hloc]; exact Nat.le_of_eq hlen.symm)
    exact ⟨h1, h2⟩

/-- C2 at a concrete input: with `MAX_CONNECT_TRIES = 10` and a queue of ten
`MQTT_CONNECT_DISCONNECTED` events, the eleventh pass resets. -/
theorem C2_abort_on_attempt_after_bound_witness :
    connectAttempts (passEffects lwipConsts okEnv
      (loop_iterations lwipConsts okEnv (List.replicate 10 (some 256)) (loopEntry 1))) = 0 ∧
    resets (passEffects lwipConsts okEnv
      (loop_iterations lwipConsts okEnv (List.replicate 10 (some 256)) (loopEntry 1))) = 1 :=
  (C2_abort_on_attempt_after_bound lwipConsts okEnv 1 (List.replicate 10 (some 256))
    (by decide) (by decide)).2.2 (by decide)

/-! ## The publisher task -/

/-- The run on two consecutive `MQTT_CONNECT_ACCEPTED` events, all engine calls
succeeding: the second pass through `MQTT_IS_CONNECTED` overwrites the handle of the
first publisher without deleting it. -/
theorem trace_accepted_twice :
    (mqtt_client_connection_thread lwipConsts okEnv (some 1) [some 0, some 0]).2.trace =
      [Effect.xQueueCreate 4, Effect.mqtt_client_new (some 1),
       Effect.mqtt_client_connect (lit "lwip_test") [142, 93, 0, 227] 1883
         Callback.mqtt_connection_cb,
       Effect.xQueueReceive (some 0),
       Effect.sys_thread_new "mqtt_client_test_thread" Callback.mqtt_client_test_thread
         (some 4),
       Effect.xQueueReceive (some 0),
       Effect.sys_thread_new "mqtt_client_test_thread" Callback.mqtt_client_test_thread
         (some 6)] := by
  decide

/-- C3 fails on the code: after two consecutive `MQTT_CONNECT_ACCEPTED` events two
publisher tasks are live, those with handles 4 and 6, and no reset has happened. -/
theorem C3_two_publishers_live :
    liveTasks (mqtt_client_connection_thread lwipConsts okEnv (some 1)
      [some 0, some 0]).2.trace = [4, 6] ∧
    (mqtt_client_connection_thread lwipConsts okEnv (some 1)
      [some 0, some 0]).2.halted = false := by
  decide

/-- C4 fails on the code: in the run on accepted, accepted, disconnected, accepted the
publisher with handle 4 is spawned at position 4, a disconnect is popped at position 7
and the next publisher is spawned at position 11, but handle 4 is never deleted (the
only deletion is of handle 6). -/
theorem C4_cancel_missing_after_double_accept :
    (mqtt_client_connection_thread lwipConsts okEnv (some 1)
      [some 0, some 0, some 256, some 0]).2.trace =
      [Effect.xQueueCreate 4, Effect.mqtt_client_new (some 1),
       Effect.mqtt_client_connect (lit "lwip_test") [142, 93, 0, 227] 1883
         Callback.mqtt_connection_cb,
       Effect.xQueueReceive (some 0),
       Effect.sys_thread_new "mqtt_client_test_thread" Callback.mqtt_client_test_thread
         (some 4),
       Effect.xQueueReceive (some 0),
       Effect.sys_thread_new "mqtt_client_test_thread" Callback.mqtt_client_test_thread
         (some 6),
       Effect.xQueueReceive (some 256),
       Effect.vTaskDelete 6,
       Effect.mqtt_client_connect (lit "lwip_test") [142, 93, 0, 227] 1883
         Callback.mqtt_connection_cb,
       Effect.xQueueReceive (some 0),
       Effect.sys_thread_new "mqtt_client_test_thread" Callback.mqtt_client_test_thread
         (some 11)] ∧
    ¬ CancelBeforeSpawn lwipConsts (mqtt_client_connection_thread lwipConsts okEnv (some 1)
      [some 0, some 0, some 256, some 0]).2.trace := by
  have e : (mqtt_client_connection_thread lwipConsts okEnv (some 1)
      [some 0, some 0, some 256, some 0]).2.trace =
      [Effect.xQueueCreate 4, Effect.mqtt_client_new (some 1),
       Effect.mqtt_client_connect (lit "lwip_test") [142, 93, 0, 227] 1883
         Callback.mqtt_connection_cb,
       Effect.xQueueReceive (some 0),
       Effect.sys_thread_new "mqtt_client_test_thread" Callback.mqtt_client_test_thread
         (some 4),
       Effect.xQueueReceive (some 0),
       Effect.sys_thread_new "mqtt_client_test_thread" Callback.mqtt_client_test_thread
         (some 6),
       Effect.xQueueReceive (some 256),
       Effect.vTaskDelete 6,
       Effect.mqtt_client_connect (lit "lwip_test") [142, 93, 0, 227] 1883
         Callback.mqtt_connection_cb,
       Effect.xQueueReceive (some 0),
       Effect.sys_thread_new "mqtt_client_test_thread" Callback.mqtt_client_test_thread
         (some 11)] := by decide
  refine ⟨e, ?_⟩
  rw [e]
  intro hc
  obtain ⟨d, h1, h2, h3⟩ := hc 4 11 7 4 256 (some 11) rfl rfl (by decide) (by decide) rfl
    (by decide)
  interval_cases d <;> simp at h3

/-! ## The pass after an accepted event -/

/-- A pass in `MQTT_IS_CONNECTED`: the counter is cleared, one task is created and its
handle stored; nothing else happens. -/
theorem switch_connected (K : Consts) (env : Env) (sw : Supervisor × World)
    (hrun : sw.2.halted = false)
    (hst : sw.1.mqttConnState = mqttConnState_t.MQTT_IS_CONNECTED) :
    loop_switch K env sw =
      (⟨env.sys_thread_new sw.2.trace, mqttConnState_t.MQTT_IS_CONNECTED, 0⟩,
       ⟨sw.2.trace ++ [Effect.sys_thread_new "mqtt_client_test_thread"
          Callback.mqtt_client_test_thread (env.sys_thread_new sw.2.trace)], false⟩) := by
  obtain ⟨⟨h, st, n⟩, ⟨t, hl⟩⟩ := sw
  simp only at hrun hst
  subst hrun hst
  simp [loop_switch, emit]

theorem loop_receive_accepted (K : Consts) (sw : Supervisor × World)
    (hrun : sw.2.halted = false) :
    loop_receive K (some K.MQTT_CONNECT_ACCEPTED) sw =
      ({ sw.1 with mqttConnState := mqttConnState_t.MQTT_IS_CONNECTED },
       ⟨sw.2.trace ++ [Effect.xQueueReceive (some K.MQTT_CONNECT_ACCEPTED)], false⟩) := by
  simp [loop_receive, emit_running _ hrun]

theorem afterAccepted_eq (K : Consts) (env : Env) (sw : Supervisor × World)
    (hrun : sw.2.halted = false) :
    afterAccepted K env sw =
      (⟨env.sys_thread_new
          (sw.2.trace ++ [Effect.xQueueReceive (some K.MQTT_CONNECT_ACCEPTED)]),
        mqttConnState_t.MQTT_IS_CONNECTED, 0⟩,
       ⟨sw.2.trace ++ [Effect.xQueueReceive (some K.MQTT_CONNECT_ACCEPTED)] ++
          [Effect.sys_thread_new "mqtt_client_test_thread" Callback.mqtt_client_test_thread
            (env.sys_thread_new
              (sw.2.trace ++ [Effect.xQueueReceive (some K.MQTT_CONNECT_ACCEPTED)]))],
        false⟩) := by
  unfold afterAccepted
  rw [loop_receive_accepted K sw hrun, switch_connected K env _ rfl rfl]

theorem loop_receive_to_connecting (K : Consts) (item : Option mqtt_connection_status_t)
    (sw : Supervisor × World) (hitem : item ≠ some K.MQTT_CONNECT_ACCEPTED)
    (hne : item ≠ none) :
    (loop_receive K item sw).1 =
      { sw.1 with mqttConnState := mqttConnState_t.MQTT_IS_CONNECTING } := by
  cases item with
  | none => exact absurd rfl hne
  | some ev =>
    have hev : ev ≠ K.MQTT_CONNECT_ACCEPTED := fun hc => hitem (by rw [hc])
    simp [loop_receive, hev]

/-- C5: whatever the locals are when `MQTT_CONNECT_ACCEPTED` is processed (in
particular whatever `numConnectTries` is), the loop pass that follows runs the
`MQTT_IS_CONNECTED` branch and leaves `numConnectTries = 0`.  When an event `ev` other
than accepted is popped next, followed by `queue` without an accepted event, the pass
after `queue` makes one connect attempt and no reset as long as fewer than
`MAX_CONNECT_TRIES` attempts were made since, and it resets, with no connect attempt,
once `MAX_CONNECT_TRIES` were made (for a bound the 8-bit counter can reach). -/
theorem C5_counter_cleared_on_accept (K : Consts) (env : Env) (sw : Supervisor × World)
    (ev : mqtt_connection_status_t) (queue : List (Option mqtt_connection_status_t))
    (hrun : sw.2.halted = false) (hev : ev ≠ K.MQTT_CONNECT_ACCEPTED)
    (hno : ∀ item ∈ queue, item ≠ some K.MQTT_CONNECT_ACCEPTED) :
    (afterAccepted K env sw).1.numConnectTries = 0 ∧
    (afterAccepted K env sw).1.mqttConnState = mqttConnState_t.MQTT_IS_CONNECTED ∧
    (afterAccepted K env sw).2.halted = false ∧
    (queue.length < K.MAX_CONNECT_TRIES →
      (loop_iterations K env queue
        (loop_receive K (some ev) (afterAccepted K env sw))).2.halted = false ∧
      connectAttempts (passEffects K env (loop_iterations K env queue
        (loop_receive K (some ev) (afterAccepted K env sw)))) = 1 ∧
      resets (passEffects K env (loop_iterations K env queue
        (loop_receive K (some ev) (afterAccepted K env sw)))) = 0) ∧
    (queue.length = K.MAX_CONNECT_TRIES → K.MAX_CONNECT_TRIES ≤ 255 →
      (loop_iterations K env queue
        (loop_receive K (some ev) (afterAccepted K env sw))).2.halted = false ∧
      connectAttempts (passEffects K env (loop_iterations K env queue
        (loop_receive K (some ev) (afterAccepted K env sw)))) = 0 ∧
      resets (passEffects K env (loop_iterations K env queue
        (loop_receive K (some ev) (afterAccepted K env sw)))) = 1) := by
  have ha := afterAccepted_eq K env sw hrun
  have hah : (afterAccepted K env sw).2.halted = false := by rw [ha]
  have hrh : (loop_receive K (some ev) (afterAccepted K env sw)).2.halted = false := by
    rw [loop_receive_halted]; exact hah
  have hrl : (loop_receive K (some ev) (afterAccepted K env sw)).1 =
      { (afterAccepted K env sw).1 with
        mqttConnState := mqttConnState_t.MQTT_IS_CONNECTING } :=
    loop_receive_to_connecting K (some ev) _ (fun hc => hev (Option.some.inj hc))
      (by simp)
  have hrn : (loop_receive K (some ev) (afterAccepted K env sw)).1.numConnectTries = 0 := by
    rw [hrl, ha]
  have hrs : (loop_receive K (some ev) (afterAccepted K env sw)).1.mqttConnState
      = mqttConnState_t.MQTT_IS_CONNECTING := by rw [hrl]
  have key : queue.length ≤ K.MAX_CONNECT_TRIES →
      (loop_iterations K env queue
        (loop_receive K (some ev) (afterAccepted K env sw))).2.halted = false ∧
      (loop_iterations K env queue
        (loop_receive K (some ev) (afterAccepted K env sw))).1.mqttConnState
          = mqttConnState_t.MQTT_IS_CONNECTING ∧
      (loop_iterations K env queue
        (loop_receive K (some ev) (afterAccepted K env sw))).1.numConnectTries
          = queue.length % 256 := by
    intro hlen
    obtain ⟨h1, h2⟩ := loop_iterations_connecting K env queue _ hrh hrs hno
      (by rw [hrn]; decide) (by rw [hrn]; omega)
    refine ⟨h1, ?_, ?_⟩
    · rw [h2]; exact hrs
    · rw [h2, hrn]; simp
  refine ⟨by rw [ha], by rw [ha], hah, ?_, ?_⟩
  · intro hlen
    obtain ⟨hh, hs, hn⟩ := key (by omega)
    obtain ⟨h1, h2, -, -⟩ := switch_connecting_attempt K env _ hh hs
      (by rw [hn]; exact lt_of_le_of_lt (Nat.mod_le _ _) hlen)
    exact ⟨hh, h1, h2⟩
  · intro hlen hmax
    obtain ⟨hh, hs, hn⟩ := key (by omega)
    obtain ⟨h1, h2, -⟩ := switch_connecting_abort K env _ hh hs
      (by rw [hn, Nat.mod_eq_of_lt (by omega)]; omega)
    exact ⟨hh, h1, h2⟩

/-- C5 at a concrete input: the counter is 7 when the accepted event arrives; after the
pass it is 0, and after a disconnect and nine more failures the pass still connects. -/
theorem C5_counter_cleared_on_accept_witness :
    (afterAccepted lwipConsts okEnv
      (⟨none, mqttConnState_t.MQTT_IS_CONNECTING, 7⟩, World.init)).1.numConnectTries = 0 ∧
    connectAttempts (passEffects lwipConsts okEnv (loop_iterations lwipConsts okEnv
      (List.replicate 9 (some 256)) (loop_receive lwipConsts (some 256)
        (afterAccepted lwipConsts okEnv
          (⟨none, mqttConnState_t.MQTT_IS_CONNECTING, 7⟩, World.init))))) = 1 :=
  have h := C5_counter_cleared_on_accept lwipConsts okEnv
    (⟨none, mqttConnState_t.MQTT_IS_CONNECTING, 7⟩, World.init) 256
    (List.replicate 9 (some 256)) rfl (by decide) (by decide)
  ⟨h.1, (h.2.2.2.1 (by decide)).2.1⟩

/-! ## Topic classification -/

theorem c_str_terminated (a rest : List Nat) (ha : ∀ x ∈ a, x ≠ 0) :
    c_str (a ++ 0 :: rest) = some a := by
  induction a with
  | nil => simp [c_str]
  | cons x a ih =>
    have hx : x ≠ 0 := ha x (List.mem_cons_self _ _)
    have := ih (fun y hy => ha y (List.mem_cons_of_mem _ hy))
    simp [c_str, hx, this]

theorem strcmp_terminated (a : List Nat) :
    ∀ (b ra rb : List Nat), (∀ x ∈ a, x ≠ 0) → (∀ x ∈ b, x ≠ 0) →
      ∃ r, strcmp (a ++ 0 :: ra) (b ++ 0 :: rb) = some r ∧ (r = 0 ↔ a = b) := by
  induction a with
  | nil =>
    intro b ra rb _ hb
    cases b with
    | nil => exact ⟨0, by simp [strcmp], by simp⟩
    | cons y b =>
      have hy : y ≠ 0 := hb y (List.mem_cons_self _ _)
      refine ⟨(0 : Int) - (y : Int), by simp [strcmp, Ne.symm hy], ?_⟩
      constructor
      · intro h; omega
      · intro h; simp at h
  | cons x a ih =>
    intro b ra rb ha hb
    have hx : x ≠ 0 := ha x (List.mem_cons_self _ _)
    cases b with
    | nil =>
      refine ⟨(x : Int) - (0 : Int), by simp [strcmp, hx], ?_⟩
      constructor
      · intro h; omega
      · intro h; simp at h
    | cons y b =>
      by_cases hxy : x = y
      · subst hxy
        obtain ⟨r, hr, hiff⟩ := ih b ra rb (fun z hz => ha z (List.mem_cons_of_mem _ hz))
          (fun z hz => hb z (List.mem_cons_of_mem _ hz))
        refine ⟨r, by simp [strcmp, hx, hr], ?_⟩
        rw [hiff]; simp
      · refine ⟨(x : Int) - (y : Int), by simp [strcmp, hxy], ?_⟩
        constructor
        · intro h; omega
        · intro h; simp at h; exact absurd h.1 hxy

/-- C6: `mqtt_incoming_publish_cb` classifies every topic string `t` (the bytes before
the terminator), whatever `inpub_id` held before and whatever follows the terminator:
afterwards `inpub_id` is 0 if `t` is "print_payload", else 1 if `t` starts with 'A', else
2 (so 2 for the empty topic).  The tag is a function of `t` alone. -/
theorem C6_classifier_total_first_match (prior : Int) (t rest : List Nat) (tot_len : Nat)
    (ht : ∀ x ∈ t, x ≠ 0) :
    mqtt_incoming_publish_cb prior (t ++ 0 :: rest) tot_len =
      some (if t = bytes "print_payload" then 0
            else if t.head? = some 'A'.toNat then 1 else 2,
        [Effect.printf "Incoming publish at topic %s with total length %u\n"
          [printf_arg.str t, printf_arg.int tot_len]]) := by
  have hlit : ∀ x ∈ bytes "print_payload", x ≠ 0 := by decide
  obtain ⟨r, hr, hiff⟩ := strcmp_terminated t (bytes "print_payload") rest [] ht hlit
  have hr2 : strcmp (t ++ 0 :: rest) (lit "print_payload") = some r := hr
  unfold mqtt_incoming_publish_cb
  rw [c_str_terminated t rest ht, hr2]
  by_cases h0 : r = 0
  · simp [h0, hiff.mp h0]
  · have hne : t ≠ bytes "print_payload" := fun h => h0 (hiff.mpr h)
    cases t with
    | nil => simp [h0, hne]
    | cons c t =>
      have hA : 'A'.toNat = 65 := by decide
      rw [hA]
      by_cases hc : c = 65
      · subst hc
        simp [h0, hne]
      · simp [h0, hne, hc]

/-- C6 at the topics of the spec, each with a different prior tag: "print_payload"
gives 0, "Anything" gives 1, "other/topic" gives 2 and the empty topic gives 2. -/
theorem C6_classifier_total_first_match_witness :
    mqtt_incoming_publish_cb 2 (bytes "Anything" ++ 0 :: []) 5 =
      some (1, [Effect.printf "Incoming publish at topic %s with total length %u\n"
        [printf_arg.str (bytes "Anything"), printf_arg.int 5]]) ∧
    (mqtt_incoming_publish_cb 1 (lit "print_payload") 5).map Prod.fst = some 0 ∧
    (mqtt_incoming_publish_cb 0 (lit "other/topic") 5).map Prod.fst = some 2 ∧
    (mqtt_incoming_publish_cb 0 (lit "") 0).map Prod.fst = some 2 :=
  ⟨C6_classifier_total_first_match 2 (bytes "Anything") [] 5 (by decide),
    by decide, by decide, by decide⟩

/-! ## Payload fragments -/

theorem c_str_zero_at (l : List Nat) :
    ∀ n : Nat, l[n]? = some 0 →
      c_str l = some (textOf (l.take (n + 1))) ∧ (textOf (l.take (n + 1))).length ≤ n := by
  induction l with
  | nil => intro n h; simp at h
  | cons b rest ih =>
    intro n h
    by_cases hb : b = 0
    · subst hb
      simp [c_str, textOf]
    · cases n with
      | zero => simp at h; exact absurd h hb
      | succ m =>
        have hm : rest[m]? = some 0 := by simpa using h
        obtain ⟨h1, h2⟩ := ih m hm
        have hb2 : (b != 0) = true := by simpa using hb
        constructor
        · simp only [c_str, hb, if_false, h1, Option.map_some', List.take_succ_cons, textOf,
            List.takeWhile_cons, hb2, if_true]
        · simp only [List.take_succ_cons, textOf, List.takeWhile_cons, hb2, if_true,
            List.length_cons]
          exact Nat.succ_le_succ h2

theorem get_last_of_fragment (data : u8_ptr) (len : Nat) (hlen : 1 ≤ len) :
    data.get ((len : Int) - 1) = (data.obj.drop data.off)[len - 1]? := by
  have h0 : 0 ≤ (data.off : Int) + ((len : Int) - 1) := by omega
  have h1 : ((data.off : Int) + ((len : Int) - 1)).toNat = data.off + (len - 1) := by omega
  simp only [u8_ptr.get, h0, if_true, h1, List.getElem?_drop]

theorem mem_stringReads (n : Nat) (e : Effect) (h : e ∈ stringReads n) :
    ∃ i : Nat, i ≤ n ∧ e = Effect.read (Int.ofNat i) := by
  unfold stringReads at h
  obtain ⟨i, hi, rfl⟩ := List.mem_map.mp h
  exact ⟨i, by have := List.mem_range.mp hi; omega, rfl⟩

/-- C7: for a final fragment of length `len ≥ 1` that lies inside its buffer, delivered
while the route slot is 0 (PRINT): the callback reads `data[len - 1]`; if that byte is 0
it prints the text of the fragment (its bytes up to the first zero byte), reading only
that text and its terminator; if that byte is not 0 it does nothing more, so no payload
text is printed.  In both cases every index read lies in `[0, len)`. -/
theorem C7_print_final_fragment (K : Consts) (data : u8_ptr) (len flags : Nat)
    (hlast : flags &&& K.MQTT_DATA_FLAG_LAST ≠ 0) (hlen : 1 ≤ len)
    (hfrag : data.off + len ≤ data.obj.length) :
    ∃ b, data.get ((len : Int) - 1) = some b ∧
      (b = 0 →
        mqtt_incoming_data_cb K 0 data len flags =
          some (0,
            [Effect.printf "Incoming publish payload with length %d, flags %u\n"
              [printf_arg.int len, printf_arg.int flags],
             Effect.read ((len : Int) - 1)] ++
            stringReads (textOf (fragment data len)).length ++
            [Effect.printf "mqtt_incoming_data_cb: %s\n"
              [printf_arg.str (textOf (fragment data len))]])) ∧
      (b ≠ 0 →
        mqtt_incoming_data_cb K 0 data len flags =
          some (0,
            [Effect.printf "Incoming publish payload with length %d, flags %u\n"
              [printf_arg.int len, printf_arg.int flags],
             Effect.read ((len : Int) - 1)])) ∧
      ∀ r, mqtt_incoming_data_cb K 0 data len flags = some r →
        ∀ i : Int, Effect.read i ∈ r.2 → 0 ≤ i ∧ i < len := by
  have hget := get_last_of_fragment data len hlen
  have hidx : len - 1 < (data.obj.drop data.off).length := by
    rw [List.length_drop]; omega
  obtain ⟨b, hb⟩ : ∃ b, (data.obj.drop data.off)[len - 1]? = some b :=
    ⟨_, List.getElem?_eq_getElem hidx⟩
  have hgb : data.get ((len : Int) - 1) = some b := by rw [hget, hb]
  have hsucc : len - 1 + 1 = len := by omega
  by_cases hz : b = 0
  · subst hz
    obtain ⟨hc, hcl⟩ := c_str_zero_at (data.obj.drop data.off) (len - 1) hb
    rw [hsucc] at hc hcl
    have hval : mqtt_incoming_data_cb K 0 data len flags =
        some (0,
          [Effect.printf "Incoming publish payload with length %d, flags %u\n"
            [printf_arg.int len, printf_arg.int flags],
           Effect.read ((len : Int) - 1)] ++
          stringReads (textOf (fragment data len)).length ++
          [Effect.printf "mqtt_incoming_data_cb: %s\n"
            [printf_arg.str (textOf (fragment data len))]]) := by
      simp [mqtt_incoming_data_cb, hlast, hgb, hc, fragment]
    refine ⟨0, hgb, fun _ => hval, fun h => absurd rfl h, ?_⟩
    intro r hr i hi
    rw [hval] at hr
    cases hr
    simp only [List.mem_append, List.mem_cons, List.mem_singleton, List.not_mem_nil,
      or_false, false_or, Effect.read.injEq] at hi
    rcases hi with (hi | hi) | hi
    · rcases hi with hi | hi
      · cases hi
      · omega
    · obtain ⟨j, hj, hje⟩ := mem_stringReads _ _ hi
      cases hje
      have : j ≤ len - 1 := le_trans hj hcl
      constructor
      · exact Int.ofNat_nonneg j
      · show ((j : Nat) : Int) < (len : Int)
        omega
    · cases hi
  · have hval : mqtt_incoming_data_cb K 0 data len flags =
        some (0,
          [Effect.printf "Incoming publish payload with length %d, flags %u\n"
            [printf_arg.int len, printf_arg.int flags],
           Effect.read ((len : Int) - 1)]) := by
      simp [mqtt_incoming_data_cb, hlast, hgb, hz]
    refine ⟨b, hgb, fun h => absurd h hz, fun _ => hval, ?_⟩
    intro r hr i hi
    rw [hval] at hr
    cases hr
    simp only [List.mem_cons, List.mem_singleton, List.not_mem_nil, or_false,
      Effect.read.injEq] at hi
    rcases hi with hi | hi
    · cases hi
    · omega

/-- C7 at a concrete input: the three-byte final fragment "Hi" with its terminator is
printed as "Hi"; the reads are of `data[2]` and then of indices 0, 1, 2. -/
theorem C7_print_final_fragment_witness :
    mqtt_incoming_data_cb lwipConsts 0 ⟨[72, 105, 0], 0⟩ 3 1 =
      some (0,
        [Effect.printf "Incoming publish payload with length %d, flags %u\n"
          [printf_arg.int 3, printf_arg.int 1],
         Effect.read 2, Effect.read 0, Effect.read 1, Effect.read 2,
         Effect.printf "mqtt_incoming_data_cb: %s\n" [printf_arg.str [72, 105]]]) := by
  obtain ⟨b, hb, h0, -, -⟩ := C7_print_final_fragment lwipConsts ⟨[72, 105, 0], 0⟩ 3 1
    (by decide) (by decide) (by decide)
  have hb0 : b = 0 := by
    have h2 : u8_ptr.get ⟨[72, 105, 0], 0⟩ (((3 : Nat) : Int) - 1) = some 0 := by decide
    rw [h2] at hb
    exact (Option.some.inj hb).symm
  rw [h0 hb0]
  decide

/-- For a fragment of length `len ≥ 1` the reads of `mqtt_incoming_data_cb` stay inside
the fragment, for every route, every flags value and every buffer for which the call is
defined.  The empty fragment is the one case left out. -/
theorem reads_within_nonempty_fragment (K : Consts) (inpub_id : Int) (data : u8_ptr)
    (len flags : Nat) (hlen : 1 ≤ len) :
    ∀ r, mqtt_incoming_data_cb K inpub_id data len flags = some r →
      ∀ i : Int, Effect.read i ∈ r.2 → 0 ≤ i ∧ i < len := by
  intro r hr i hi
  unfold mqtt_incoming_data_cb at hr
  simp only [] at hr
  split at hr
  · split at hr
    · split at hr
      · cases hr
      · next b hb =>
        split at hr
        · next hz =>
          subst hz
          rw [get_last_of_fragment data len hlen] at hb
          obtain ⟨hc, hcl⟩ := c_str_zero_at (data.obj.drop data.off) (len - 1) hb
          rw [hc] at hr
          simp only [Option.some.injEq] at hr
          subst hr
          simp only [List.mem_append, List.mem_cons, List.mem_singleton, List.not_mem_nil,
            or_false, false_or, Effect.read.injEq] at hi
          rcases hi with (hi | hi) | hi
          · rcases hi with hi | hi
            · cases hi
            · omega
          · obtain ⟨j, hj, hje⟩ := mem_stringReads _ _ hi
            cases hje
            have : j ≤ len - 1 := le_trans hj hcl
            constructor
            · exact Int.ofNat_nonneg j
            · show ((j : Nat) : Int) < (len : Int)
              omega
          · cases hi
        · simp only [Option.some.injEq] at hr
          subst hr
          simp only [List.mem_append, List.mem_cons, List.mem_singleton, List.not_mem_nil,
            or_false, false_or, Effect.read.injEq] at hi
          rcases hi with hi | hi
          · cases hi
          · omega
    · split at hr
      · simp only [Option.some.injEq] at hr
        subst hr
        simp at hi
      · simp only [Option.some.injEq] at hr
        subst hr
        simp at hi
  · simp only [Option.some.injEq] at hr
    subst hr
    simp at hi

/-- C8 fails on the code: for an empty final fragment (`len = 0`) under the PRINT route
the callback reads `data[-1]`, the byte before the fragment.  If that byte is not zero
nothing more is read; if it is zero the callback goes on to print the string at `data`,
reading indices 0, 1, 2 of a fragment declared empty.  If there is no byte before `data`
in its object the read is undefined behaviour. -/
theorem C8_read_before_empty_fragment :
    mqtt_incoming_data_cb lwipConsts 0 ⟨[65, 66], 1⟩ 0 1 =
      some (0,
        [Effect.printf "Incoming publish payload with length %d, flags %u\n"
          [printf_arg.int 0, printf_arg.int 1],
         Effect.read (-1)]) ∧
    mqtt_incoming_data_cb lwipConsts 0 ⟨[0, 72, 105, 0], 1⟩ 0 1 =
      some (0,
        [Effect.printf "Incoming publish payload with length %d, flags %u\n"
          [printf_arg.int 0, printf_arg.int 1],
         Effect.read (-1), Effect.read 0, Effect.read 1, Effect.read 2,
         Effect.printf "mqtt_incoming_data_cb: %s\n" [printf_arg.str [72, 105]]]) ∧
    mqtt_incoming_data_cb lwipConsts 0 ⟨[72, 105, 0], 0⟩ 0 1 = none := by
  decide

/-! ## Publish gateway -/

theorem c_str_of_mem_zero (p : List Nat) (h : 0 ∈ p) : c_str p = some (textOf p) := by
  induction p with
  | nil => simp at h
  | cons b rest ih =>
    by_cases hb : b = 0
    · subst hb; simp [c_str, textOf]
    · have hr : 0 ∈ rest := by
        rcases List.mem_cons.mp h with h0 | h0
        · exact absurd h0.symm hb
        · exact h0
      have hb2 : (b != 0) = true := by simpa using hb
      simp only [c_str, hb, if_false, ih hr, Option.map_some', textOf, List.takeWhile_cons,
        hb2, if_true]

theorem strlen_of_mem_zero (p : List Nat) (h : 0 ∈ p) :
    strlen p = some (textOf p).length := by
  simp [strlen, c_str_of_mem_zero p h]

/-- What `mqtt_client_publish` does with a message whose payload is a C string, in a
running system. -/
theorem mqtt_client_publish_eq (K : Consts) (env : Env) (msg : messageMqtt_t) (w : World)
    (hrun : w.halted = false) (hpay : 0 ∈ msg.payload) :
    mqtt_client_publish K env (some msg) w =
      if env.mqtt_publish (w.trace ++ [forwardOf msg]) ≠ K.ERR_OK then
        some (some msg, ⟨w.trace ++ [forwardOf msg, Effect.NVIC_SystemReset], true⟩)
      else some (some msg, ⟨w.trace ++ [forwardOf msg], false⟩) := by
  obtain ⟨t, hl⟩ := w
  simp only at hrun
  subst hrun
  by_cases herr : env.mqtt_publish (t ++ [forwardOf msg]) = K.ERR_OK
  · simp [mqtt_client_publish, strlen_of_mem_zero _ hpay, emit, forwardOf, herr] at *
  · simp [mqtt_client_publish, strlen_of_mem_zero _ hpay, emit, forwardOf, herr,
      NVIC_SystemReset, mqtt_connection_cb] at *

/-- C9: for a message whose payload is a C string, published in a running system: when
the engine's `mqtt_publish` returns a result other than `ERR_OK`, the effects of
`mqtt_client_publish` are exactly the one call of `mqtt_publish` followed by one call of
`NVIC_SystemReset`, which ends the run (no second publish, and the clean-up after the
reset never runs); when it returns `ERR_OK`, the one call of `mqtt_publish` is the only
effect: no reset, no `mqtt_disconnect`, no `xQueueSend`.  For a null message there is no
effect at all. -/
theorem C9_publish_failure_resets_once (K : Consts) (env : Env) (msg : messageMqtt_t)
    (w : World) (hrun : w.halted = false) (hpay : 0 ∈ msg.payload) :
    (env.mqtt_publish (w.trace ++ [forwardOf msg]) ≠ K.ERR_OK →
      mqtt_client_publish K env (some msg) w =
        some (some msg, ⟨w.trace ++ [forwardOf msg, Effect.NVIC_SystemReset], true⟩)) ∧
    (env.mqtt_publish (w.trace ++ [forwardOf msg]) = K.ERR_OK →
      mqtt_client_publish K env (some msg) w =
        some (some msg, ⟨w.trace ++ [forwardOf msg], false⟩)) ∧
    mqtt_client_publish K env none w = some (none, w) := by
  rw [mqtt_client_publish_eq K env msg w hrun hpay]
  refine ⟨fun herr => by simp [herr], fun herr => by simp [herr], ?_⟩
  simp [mqtt_client_publish]

/-- C9 at a concrete input: publishing the first test message while the engine refuses
it gives one `mqtt_publish` and one reset. -/
theorem C9_publish_failure_resets_once_witness :
    mqtt_client_publish lwipConsts downEnv (some testMsg) World.init =
      some (some testMsg, ⟨[forwardOf testMsg, Effect.NVIC_SystemReset], true⟩) :=
  (C9_publish_failure_resets_once lwipConsts downEnv testMsg World.init rfl
    (by decide)).1 (by decide)

theorem textOf_replicate (n : Nat) (rest : List Nat) :
    textOf (List.replicate n 65 ++ 0 :: rest) = List.replicate n 65 := by
  induction n with
  | zero => simp [textOf]
  | succ n ih =>
    simp only [textOf] at ih
    simp [textOf, List.replicate_succ, ih]

/-- C10 fails on the code: for a payload with 65541 bytes before its terminator the
length passed to `mqtt_publish` is 5, the `strlen` of the payload converted to the
`u16_t` parameter, not the number of bytes before the first zero byte. -/
theorem C10_long_payload_length_wraps :
    (longMsg.payload.takeWhile (fun x => x != 0)).length = 65541 ∧
    mqtt_client_publish lwipConsts okEnv (some longMsg) World.init =
      some (some longMsg,
        ⟨[Effect.mqtt_publish longMsg.topic longMsg.payload 5 longMsg.qos longMsg.retain
          Callback.mqtt_pub_request_cb], false⟩) := by
  have hlen : (textOf longMsg.payload).length = 65541 := by
    show (textOf (List.replicate 65541 65 ++ 0 :: [])).length = 65541
    rw [textOf_replicate, List.length_replicate]
  have hmem : 0 ∈ longMsg.payload := by
    show 0 ∈ List.replicate 65541 65 ++ [0]
    exact List.mem_append_right _ (List.mem_singleton.mpr rfl)
  have hf : forwardOf longMsg =
      Effect.mqtt_publish longMsg.topic longMsg.payload 5 longMsg.qos longMsg.retain
        Callback.mqtt_pub_request_cb := by
    unfold forwardOf
    rw [hlen]
    rfl
  refine ⟨hlen, ?_⟩
  rw [mqtt_client_publish_eq lwipConsts okEnv longMsg World.init rfl hmem, hf]
  have hok : okEnv.mqtt_publish (World.init.trace ++
      [Effect.mqtt_publish longMsg.topic longMsg.payload 5 longMsg.qos longMsg.retain
        Callback.mqtt_pub_request_cb]) = lwipConsts.ERR_OK := rfl
  rw [if_neg (not_not.mpr hok)]
  rfl

/-- C10 as amended: for a message whose payload is a C string, published in a running
system, `mqtt_client_publish` calls `mqtt_publish` exactly once, whatever the engine
answers, with the message's topic, its payload, the number of payload bytes before the
first zero byte taken modulo 65536, its qos, its retain flag and `mqtt_pub_request_cb`;
for a payload with fewer than 65536 bytes before the first zero byte the length passed
is that number of bytes; the message is the same after the call. -/
theorem C10_publish_forwards_message (K : Consts) (env : Env) (msg : messageMqtt_t)
    (w : World) (hrun : w.halted = false) (hpay : 0 ∈ msg.payload) :
    ∃ w1, mqtt_client_publish K env (some msg) w = some (some msg, w1) ∧
      publishCalls (w1.trace.drop w.trace.length) =
        [Effect.mqtt_publish msg.topic msg.payload
          ((msg.payload.takeWhile (fun x => x != 0)).length % 65536) msg.qos msg.retain
          Callback.mqtt_pub_request_cb] ∧
      ((msg.payload.takeWhile (fun x => x != 0)).length < 65536 →
        publishCalls (w1.trace.drop w.trace.length) =
          [Effect.mqtt_publish msg.topic msg.payload
            (msg.payload.takeWhile (fun x => x != 0)).length msg.qos msg.retain
            Callback.mqtt_pub_request_cb]) := by
  rw [mqtt_client_publish_eq K env msg w hrun hpay]
  by_cases herr : env.mqtt_publish (w.trace ++ [forwardOf msg]) = K.ERR_OK
  · refine ⟨⟨w.trace ++ [forwardOf msg], false⟩, by simp [herr],
      by simp [publishCalls, forwardOf, isPublish, textOf, to_u16], fun hlt => ?_⟩
    simp [publishCalls, forwardOf, isPublish, textOf, to_u16, Nat.mod_eq_of_lt hlt]
  · refine ⟨⟨w.trace ++ [forwardOf msg, Effect.NVIC_SystemReset], true⟩, by simp [herr],
      by simp [publishCalls, forwardOf, isPublish, textOf, to_u16], fun hlt => ?_⟩
    simp [publishCalls, forwardOf, isPublish, textOf, to_u16, Nat.mod_eq_of_lt hlt]

/-- C10 as amended, at a concrete input: the first test message is forwarded with
length 14. -/
theorem C10_publish_forwards_message_witness :
    ∃ w1, mqtt_client_publish lwipConsts okEnv (some testMsg) World.init
        = some (some testMsg, w1) ∧
      publishCalls (w1.trace.drop World.init.trace.length) =
        [Effect.mqtt_publish testMsg.topic testMsg.payload 14 testMsg.qos testMsg.retain
          Callback.mqtt_pub_request_cb] := by
  obtain ⟨w1, h1, -, h3⟩ :=
    C10_publish_forwards_message lwipConsts okEnv testMsg World.init rfl (by decide)
  exact ⟨w1, h1, h3 (by decide)⟩

/-! ## Entering `MQTT_IS_CONNECTING` twice -/

/-- C11 fails on the code: from a supervisor that holds handle 4 with counter 0, one pass
through the `MQTT_IS_CONNECTING` branch leaves the counter at 1 and makes one connect
attempt; a second pass right after it leaves the counter at 2 and makes a second connect
attempt (and a second `vTaskDelete`), so twice is not the same as once. -/
theorem C11_enter_connecting_twice_differs :
    loop_switch lwipConsts okEnv holding4 =
      (⟨some 4, mqttConnState_t.MQTT_IS_CONNECTING, 1⟩,
       ⟨[Effect.vTaskDelete 4,
         Effect.mqtt_client_connect (lit "lwip_test") [142, 93, 0, 227] 1883
           Callback.mqtt_connection_cb], false⟩) ∧
    loop_switch lwipConsts okEnv (loop_switch lwipConsts okEnv holding4) =
      (⟨some 4, mqttConnState_t.MQTT_IS_CONNECTING, 2⟩,
       ⟨[Effect.vTaskDelete 4,
         Effect.mqtt_client_connect (lit "lwip_test") [142, 93, 0, 227] 1883
           Callback.mqtt_connection_cb,
         Effect.vTaskDelete 4,
         Effect.mqtt_client_connect (lit "lwip_test") [142, 93, 0, 227] 1883
           Callback.mqtt_connection_cb], false⟩) ∧
    loop_switch lwipConsts okEnv (loop_switch lwipConsts okEnv holding4)
      ≠ loop_switch lwipConsts okEnv holding4 := by
  decide

/-- C11 as amended: in a running system, a pass through the `MQTT_IS_CONNECTING` branch
with the counter below the bound leaves `mqttConnState` and `mqtt_client_test_handler`
as they were, so a second pass leaves them as the first did; but every such pass adds
one to `numConnectTries` (modulo 256) and makes one connect attempt of its own, without
a reset. -/
theorem C11_enter_connecting_repeats_attempt (K : Consts) (env : Env)
    (sw : Supervisor × World) (hrun : sw.2.halted = false)
    (hst : sw.1.mqttConnState = mqttConnState_t.MQTT_IS_CONNECTING)
    (hlt : sw.1.numConnectTries + 1 < K.MAX_CONNECT_TRIES) :
    (loop_switch K env (loop_switch K env sw)).1.mqttConnState
      = (loop_switch K env sw).1.mqttConnState ∧
    (loop_switch K env (loop_switch K env sw)).1.mqtt_client_test_handler
      = (loop_switch K env sw).1.mqtt_client_test_handler ∧
    (loop_switch K env sw).1.mqtt_client_test_handler = sw.1.mqtt_client_test_handler ∧
    (loop_switch K env sw).1.numConnectTries = (sw.1.numConnectTries + 1) % 256 ∧
    (loop_switch K env (loop_switch K env sw)).1.numConnectTries
      = (sw.1.numConnectTries + 2) % 256 ∧
    connectAttempts (passEffects K env sw) = 1 ∧
    connectAttempts (passEffects K env (loop_switch K env sw)) = 1 ∧
    resets (passEffects K env sw) = 0 ∧
    resets (passEffects K env (loop_switch K env sw)) = 0 := by
  obtain ⟨a1, r1, h1, l1⟩ := switch_connecting_attempt K env sw hrun hst (by omega)
  have hst1 : (loop_switch K env sw).1.mqttConnState
      = mqttConnState_t.MQTT_IS_CONNECTING := by rw [loop_switch_state]; exact hst
  have hn1 : (loop_switch K env sw).1.numConnectTries
      = (sw.1.numConnectTries + 1) % 256 := by rw [l1]
  obtain ⟨a2, r2, -, l2⟩ := switch_connecting_attempt K env (loop_switch K env sw) h1 hst1
    (by rw [hn1]; exact lt_of_le_of_lt (Nat.mod_le _ _) hlt)
  refine ⟨by rw [loop_switch_state], by rw [l2], by rw [l1], hn1, ?_, a1, a2, r1, r2⟩
  rw [l2, hn1]
  show ((sw.1.numConnectTries + 1) % 256 + 1) % 256 = (sw.1.numConnectTries + 2) % 256
  omega

/-- C11 as amended, at a concrete input: holding handle 4 with counter 0 and bound 10,
the second pass still holds handle 4 and leaves the counter at 2. -/
theorem C11_enter_connecting_repeats_attempt_witness :
    (loop_switch lwipConsts okEnv (loop_switch lwipConsts okEnv holding4)).1.mqtt_client_test_handler
      = (loop_switch lwipConsts okEnv holding4).1.mqtt_client_test_handler ∧
    (loop_switch lwipConsts okEnv (loop_switch lwipConsts okEnv holding4)).1.numConnectTries
      = (holding4.1.numConnectTries + 2) % 256 :=
  have h := C11_enter_connecting_repeats_attempt lwipConsts okEnv holding4 rfl rfl
    (by decide)
  ⟨h.2.1, h.2.2.2.2.1⟩

/-! ## The attempt counter -/

theorem attemptsSince_snoc (t : List Effect) (e : Effect) :
    attemptsSince (t ++ [e]) = countAfter (attemptsSince t) e := by
  simp [attemptsSince, List.foldl_append]

theorem counterInv_receive (K : Consts) (item : Option mqtt_connection_status_t)
    (sw : Supervisor × World) (hrun : sw.2.halted = false) (h : CounterInv K sw) :
    CounterInv K (loop_receive K item sw) := by
  obtain ⟨⟨hd, st, n⟩, ⟨t, hl⟩⟩ := sw
  simp only at hrun
  subst hrun
  have h0 := h.1 rfl
  simp only at h0
  have hat : ∀ it, attemptsSince (t ++ [Effect.xQueueReceive it]) = attemptsSince t := by
    intro it; rw [attemptsSince_snoc]; rfl
  cases item with
  | none =>
    constructor
    · intro _
      simpa [loop_receive, emit, hat] using h0
    · intro hc
      simp [loop_receive, emit] at hc
  | some ev =>
    by_cases hev : ev = K.MQTT_CONNECT_ACCEPTED
    · constructor
      · intro _
        simpa [loop_receive, emit, hat, hev] using h0
      · intro hc
        simp [loop_receive, emit, hev] at hc
    · constructor
      · intro _
        simpa [loop_receive, emit, hat, hev] using h0
      · intro hc
        simp [loop_receive, emit, hev] at hc

theorem counterInv_switch (K : Consts) (env : Env) (sw : Supervisor × World)
    (hrun : sw.2.halted = false) (h : CounterInv K sw) :
    CounterInv K (loop_switch K env sw) := by
  obtain ⟨⟨hd, st, n⟩, ⟨t, hl⟩⟩ := sw
  simp only at hrun
  subst hrun
  obtain ⟨h1, h2, h3⟩ := h.1 rfl
  simp only at h1 h2 h3
  cases st with
  | MQTT_IS_CONNECTED =>
    constructor
    · intro _
      simp [loop_switch, emit, attemptsSince, List.foldl_append, countAfter]
    · intro hc
      simp [loop_switch, emit] at hc
  | MQTT_IS_CONNECTING =>
    by_cases hlt : n < K.MAX_CONNECT_TRIES
    · cases hd with
      | none =>
        by_cases herr : env.mqtt_client_connect (t ++ [Effect.mqtt_client_connect
            (lit "lwip_test") [142, 93, 0, 227] MQTT_PORT Callback.mqtt_connection_cb])
            = K.ERR_OK
        · constructor
          · intro _
            simp only [loop_switch, hlt, if_true, mqtt_client_do_connect, emit, herr,
              Bool.false_eq_true, if_false, ne_eq, not_true_eq_false, attemptsSince,
              List.foldl_append, List.foldl_cons, List.foldl_nil, countAfter]
            simp only [attemptsSince] at h1 h2 h3
            refine ⟨?_, ?_, ?_⟩
            · omega
            · omega
            · intro hm; have := h3 hm; omega
          · intro hc
            simp [loop_switch, hlt, mqtt_client_do_connect, emit, herr] at hc
        · constructor
          · intro _
            simp only [loop_switch, hlt, if_true, mqtt_client_do_connect, emit, herr,
              Bool.false_eq_true, if_false, ne_eq, not_false_eq_true, attemptsSince,
              List.foldl_append, List.foldl_cons, List.foldl_nil, countAfter]
            simp only [attemptsSince] at h1 h2 h3
            refine ⟨?_, ?_, ?_⟩
            · omega
            · omega
            · intro hm; have := h3 hm; omega
          · intro hc
            simp [loop_switch, hlt, mqtt_client_do_connect, emit, herr] at hc
      | some hh =>
        by_cases herr : env.mqtt_client_connect (t ++ [Effect.vTaskDelete hh,
            Effect.mqtt_client_connect
            (lit "lwip_test") [142, 93, 0, 227] MQTT_PORT Callback.mqtt_connection_cb])
            = K.ERR_OK
        · constructor
          · intro _
            simp only [loop_switch, hlt, if_true, mqtt_client_do_connect, emit, herr,
              Bool.false_eq_true, if_false, ne_eq, not_true_eq_false, attemptsSince,
              List.foldl_append, List.foldl_cons, List.foldl_nil, countAfter,
              List.append_assoc, List.singleton_append]
            simp only [attemptsSince] at h1 h2 h3
            refine ⟨?_, ?_, ?_⟩
            · omega
            · omega
            · intro hm; have := h3 hm; omega
          · intro hc
            simp [loop_switch, hlt, mqtt_client_do_connect, emit, herr] at hc
        · constructor
          · intro _
            simp only [loop_switch, hlt, if_true, mqtt_client_do_connect, emit, herr,
              Bool.false_eq_true, if_false, ne_eq, not_false_eq_true, attemptsSince,
              List.foldl_append, List.foldl_cons, List.foldl_nil, countAfter,
              List.append_assoc, List.singleton_append]
            simp only [attemptsSince] at h1 h2 h3
            refine ⟨?_, ?_, ?_⟩
            · omega
            · omega
            · intro hm; have := h3 hm; omega
          · intro hc
            simp [loop_switch, hlt, mqtt_client_do_connect, emit, herr] at hc
    · constructor
      · intro hc
        cases hd <;> simp [loop_switch, hlt, NVIC_SystemReset, emit] at hc
      · intro _
        simp only [attemptsSince] at h1 h2 h3
        cases hd with
        | none =>
          simp only [loop_switch, hlt, if_false, NVIC_SystemReset, Bool.false_eq_true,
            attemptsSince, List.foldl_append, List.foldl_cons, List.foldl_nil, countAfter]
          constructor <;> omega
        | some hh =>
          simp only [loop_switch, hlt, if_false, NVIC_SystemReset, emit, Bool.false_eq_true,
            attemptsSince, List.foldl_append, List.foldl_cons, List.foldl_nil, countAfter]
          constructor <;> omega

theorem counterInv_iterations (K : Consts) (env : Env)
    (queue : List (Option mqtt_connection_status_t)) :
    ∀ sw : Supervisor × World, sw.2.halted = false → CounterInv K sw →
      CounterInv K (loop_iterations K env queue sw) := by
  induction queue with
  | nil => intro sw _ h; simpa [loop_iterations] using h
  | cons item queue ih =>
    intro sw hrun h
    have hs := counterInv_switch K env sw hrun h
    by_cases hh : (loop_switch K env sw).2.halted = true
    · have e : loop_iterations K env (item :: queue) sw = loop_switch K env sw := by
        simp [loop_iterations, hh]
      rw [e]; exact hs
    · simp only [Bool.not_eq_true] at hh
      have e : loop_iterations K env (item :: queue) sw =
          loop_iterations K env queue (loop_receive K item (loop_switch K env sw)) := by
        simp [loop_iterations, hh]
      rw [e]
      exact ih _ (by rw [loop_receive_halted]; exact hh)
        (counterInv_receive K item _ hh hs)

theorem counterInv_entry (K : Consts) (client : Nat) : CounterInv K (loopEntry client) := by
  constructor
  · intro _
    simp [loopEntry, Supervisor.init, attemptsSince, countAfter]
  · intro hc
    simp [loopEntry] at hc

theorem counterInv_thread (K : Consts) (env : Env) (client : Nat)
    (queue : List (Option mqtt_connection_status_t)) :
    CounterInv K (mqtt_client_connection_thread K env (some client) queue) := by
  have hi := counterInv_iterations K env queue (loopEntry client) rfl
    (counterInv_entry K client)
  rw [thread_eq_loop]
  unfold supervisor_loop
  simp only []
  split
  · exact hi
  · next hh =>
    simp only [Bool.not_eq_true] at hh
    exact counterInv_switch K env _ hh hi

/-- C12 fails on the code: with `MAX_CONNECT_TRIES = 10` and ten disconnected events the
run ends in a reset with `numConnectTries = 11`, above the bound, after ten connect
attempts: the pass that reset added one to the counter without a connect attempt.  And
with a bound of 300, which the 8-bit counter cannot hold, 256 disconnected events leave
the counter at 1 after 257 connect attempts, without a reset. -/
theorem C12_counter_passes_bound_at_reset :
    ((mqtt_client_connection_thread lwipConsts okEnv (some 1)
      (List.replicate 10 (some 256))).1.numConnectTries = 11 ∧
    attemptsSince (mqtt_client_connection_thread lwipConsts okEnv (some 1)
      (List.replicate 10 (some 256))).2.trace = 10 ∧
    connectAttempts (mqtt_client_connection_thread lwipConsts okEnv (some 1)
      (List.replicate 10 (some 256))).2.trace = 10 ∧
    resets (mqtt_client_connection_thread lwipConsts okEnv (some 1)
      (List.replicate 10 (some 256))).2.trace = 1 ∧
    ¬ ((mqtt_client_connection_thread lwipConsts okEnv (some 1)
      (List.replicate 10 (some 256))).1.numConnectTries ≤ lwipConsts.MAX_CONNECT_TRIES)) ∧
    ((mqtt_client_connection_thread wideConsts okEnv (some 1)
      (List.replicate 256 (some 256))).1.numConnectTries = 1 ∧
    attemptsSince (mqtt_client_connection_thread wideConsts okEnv (some 1)
      (List.replicate 256 (some 256))).2.trace = 257 ∧
    (mqtt_client_connection_thread wideConsts okEnv (some 1)
      (List.replicate 256 (some 256))).2.halted = false) := by
  constructor
  · decide
  · set_option maxRecDepth 100000 in decide

/-- C12 as amended: whatever the queue delivers, both at the top of the loop after any
number of iterations and where the loop blocks: as long as no reset has happened,
`numConnectTries ≤ MAX_CONNECT_TRIES` and `numConnectTries` equals, modulo 256, the
number of connect attempts made since the last pass through `MQTT_IS_CONNECTED` (or
since the start), exactly so when `MAX_CONNECT_TRIES ≤ 255`; once the reset has
happened, the counter is one more than those attempts (modulo 256), because the pass
that resets increments it too. -/
theorem C12_counter_bounded_until_reset (K : Consts) (env : Env) (client : Nat)
    (queue : List (Option mqtt_connection_status_t)) :
    ((mqtt_client_connection_thread K env (some client) queue).2.halted = false →
      (mqtt_client_connection_thread K env (some client) queue).1.numConnectTries
        ≤ K.MAX_CONNECT_TRIES ∧
      (mqtt_client_connection_thread K env (some client) queue).1.numConnectTries
        = attemptsSince (mqtt_client_connection_thread K env (some client) queue).2.trace
          % 256 ∧
      (K.MAX_CONNECT_TRIES ≤ 255 →
        (mqtt_client_connection_thread K env (some client) queue).1.numConnectTries
          = attemptsSince
              (mqtt_client_connection_thread K env (some client) queue).2.trace)) ∧
    ((mqtt_client_connection_thread K env (some client) queue).2.halted = true →
      (mqtt_client_connection_thread K env (some client) queue).1.numConnectTries
        = (attemptsSince
            (mqtt_client_connection_thread K env (some client) queue).2.trace + 1) % 256 ∧
      K.MAX_CONNECT_TRIES ≤ attemptsSince
        (mqtt_client_connection_thread K env (some client) queue).2.trace % 256) ∧
    ((loop_iterations K env queue (loopEntry client)).2.halted = false →
      (loop_iterations K env queue (loopEntry client)).1.numConnectTries
        ≤ K.MAX_CONNECT_TRIES ∧
      (loop_iterations K env queue (loopEntry client)).1.numConnectTries
        = attemptsSince (loop_iterations K env queue (loopEntry client)).2.trace % 256 ∧
      (K.MAX_CONNECT_TRIES ≤ 255 →
        (loop_iterations K env queue (loopEntry client)).1.numConnectTries
          = attemptsSince (loop_iterations K env queue (loopEntry client)).2.trace)) := by
  have ht := counterInv_thread K env client queue
  have hi := counterInv_iterations K env queue (loopEntry client) rfl
    (counterInv_entry K client)
  exact ⟨ht.1, ht.2, hi.1⟩

/-! ## The route slot across fragments -/

theorem data_cb_keeps_slot (K : Consts) (inpub_id : Int) (data : u8_ptr) (len flags : Nat)
    (r : Int × List Effect)
    (h : mqtt_incoming_data_cb K inpub_id data len flags = some r) : r.1 = inpub_id := by
  unfold mqtt_incoming_data_cb at h
  simp only [] at h
  split at h
  · split at h
    · split at h
      · cases h
      · split at h
        · split at h
          · cases h
          · cases h; rfl
        · cases h; rfl
    · split at h <;> (cases h; rfl)
  · cases h; rfl

theorem data_cb_defined (K : Consts) (inpub_id : Int) (data : u8_ptr) (len flags : Nat)
    (hwf : WellFormedFragment K inpub_id data len flags) :
    ∃ out, mqtt_incoming_data_cb K inpub_id data len flags = some (inpub_id, out) := by
  by_cases hlast : flags &&& K.MQTT_DATA_FLAG_LAST = 0
  · simp [mqtt_incoming_data_cb, hlast]
  · by_cases hid : inpub_id = 0
    · rcases hwf with h | h | ⟨hlen, hfrag⟩
      · exact absurd h hlast
      · exact absurd hid h
      · subst hid
        have hget := get_last_of_fragment data len hlen
        have hidx : len - 1 < (data.obj.drop data.off).length := by
          rw [List.length_drop]; omega
        obtain ⟨b, hb⟩ : ∃ b, (data.obj.drop data.off)[len - 1]? = some b :=
          ⟨_, List.getElem?_eq_getElem hidx⟩
        have hgb : data.get ((len : Int) - 1) = some b := by rw [hget, hb]
        by_cases hz : b = 0
        · subst hz
          obtain ⟨hc, -⟩ := c_str_zero_at (data.obj.drop data.off) (len - 1) hb
          simp [mqtt_incoming_data_cb, hlast, hgb, hc]
        · simp [mqtt_incoming_data_cb, hlast, hgb, hz]
    · by_cases h1 : inpub_id = 1
      · simp [mqtt_incoming_data_cb, hlast, hid, h1]
      · simp [mqtt_incoming_data_cb, hlast, hid, h1]

theorem fragmentTags_const (K : Consts) (frags : List (u8_ptr × Nat × Nat)) :
    ∀ inpub_id : Int, ∀ x ∈ fragmentTags K inpub_id frags, x = inpub_id := by
  induction frags with
  | nil => intro id x hx; simp [fragmentTags] at hx
  | cons f rest ih =>
    intro id x hx
    obtain ⟨data, len, flags⟩ := f
    simp only [fragmentTags, List.mem_cons] at hx
    rcases hx with hx | hx
    · exact hx
    · cases hr : mqtt_incoming_data_cb K id data len flags with
      | none => rw [hr] at hx; simp at hx
      | some r =>
        rw [hr] at hx
        have := ih r.1 x hx
        rw [this, data_cb_keeps_slot K id data len flags r hr]

theorem fragmentTags_length (K : Consts) (frags : List (u8_ptr × Nat × Nat)) :
    ∀ inpub_id : Int,
      (∀ f ∈ frags, WellFormedFragment K inpub_id f.1 f.2.1 f.2.2) →
      (fragmentTags K inpub_id frags).length = frags.length := by
  induction frags with
  | nil => intro id _; simp [fragmentTags]
  | cons f rest ih =>
    intro id hwf
    obtain ⟨data, len, flags⟩ := f
    obtain ⟨out, hout⟩ := data_cb_defined K id data len flags
      (hwf (data, len, flags) (List.mem_cons_self _ _))
    simp only [fragmentTags, hout, List.length_cons]
    rw [ih id (fun f hf => hwf f (List.mem_cons_of_mem _ hf))]

/-- C13: `mqtt_incoming_data_cb` never changes the route slot: whenever the call is
defined, `inpub_id` after it is `inpub_id` before it, for every buffer, length and flags;
and the call is defined for every well-formed fragment.  So after an announcement that
set the slot to `tag`, every fragment of a following sequence is dispatched under
`tag`, last or not, and when the fragments are well-formed all of them are dispatched. -/
theorem C13_data_cb_keeps_route (K : Consts) (inpub_id : Int) (data : u8_ptr)
    (len flags : Nat) (frags : List (u8_ptr × Nat × Nat)) :
    (∀ r, mqtt_incoming_data_cb K inpub_id data len flags = some r → r.1 = inpub_id) ∧
    (WellFormedFragment K inpub_id data len flags →
      ∃ out, mqtt_incoming_data_cb K inpub_id data len flags = some (inpub_id, out)) ∧
    (∀ (prior : Int) (topic : List Nat) (tot_len : Nat) (tag : Int) (out : List Effect),
      mqtt_incoming_publish_cb prior topic tot_len = some (tag, out) →
      (∀ x ∈ fragmentTags K tag frags, x = tag) ∧
      ((∀ f ∈ frags, WellFormedFragment K tag f.1 f.2.1 f.2.2) →
        fragmentTags K tag frags = List.replicate frags.length tag)) := by
  refine ⟨fun r hr => data_cb_keeps_slot K inpub_id data len flags r hr,
    data_cb_defined K inpub_id data len flags, ?_⟩
  intro prior topic tot_len tag out _
  refine ⟨fragmentTags_const K frags tag, fun hwf => ?_⟩
  apply List.eq_replicate_iff.mpr
  exact ⟨fragmentTags_length K frags tag hwf, fragmentTags_const K frags tag⟩

/-- C13 at a concrete input: after the announcement of topic "Alarm" (tag 1), a first
fragment, a last fragment and an empty last fragment are all dispatched under tag 1. -/
theorem C13_data_cb_keeps_route_witness :
    fragmentTags lwipConsts 1
      [(⟨[72, 105], 0⟩, 2, 0), (⟨[33, 0], 0⟩, 2, 1), (⟨[], 0⟩, 0, 1)] = [1, 1, 1] :=
  ((C13_data_cb_keeps_route lwipConsts 1 ⟨[], 0⟩ 0 0
    [(⟨[72, 105], 0⟩, 2, 0), (⟨[33, 0], 0⟩, 2, 1), (⟨[], 0⟩, 0, 1)]).2.2
    0 (lit "Alarm") 4 1
    [Effect.printf "Incoming publish at topic %s with total length %u\n"
      [printf_arg.str (bytes "Alarm"), printf_arg.int 4]]
    (by decide)).2 (by decide)

/-! ## The connection callback -/

/-- C14: in a running system, for every status and whatever `mqtt_subscribe` returns,
`mqtt_connection_cb` pushes exactly one event, the status it was called with, as its
last effect; it calls `mqtt_subscribe` once when the status is `MQTT_CONNECT_ACCEPTED`
and not at all otherwise; it neither resets nor connects. -/
theorem C14_connection_cb_pushes_status (K : Consts) (env : Env)
    (status : mqtt_connection_status_t) (w : World) (hrun : w.halted = false) :
    sends (connectionCbEffects K env status w) = [status] ∧
    (connectionCbEffects K env status w).getLast? = some (Effect.xQueueSend status) ∧
    subscribes (connectionCbEffects K env status w)
      = (if status = K.MQTT_CONNECT_ACCEPTED then 1 else 0) ∧
    resets (connectionCbEffects K env status w) = 0 ∧
    connectAttempts (connectionCbEffects K env status w) = 0 ∧
    (mqtt_connection_cb K env status w).halted = false ∧
    (mqtt_connection_cb K env status w).trace
      = w.trace ++ connectionCbEffects K env status w := by
  obtain ⟨t, hl⟩ := w
  simp only at hrun
  subst hrun
  by_cases hst : status = K.MQTT_CONNECT_ACCEPTED
  · by_cases herr : env.mqtt_subscribe (t ++
        [Effect.printf "mqtt_connection_cb: Successfully connected\n" [],
         Effect.mqtt_set_inpub_callback Callback.mqtt_incoming_publish_cb
           Callback.mqtt_incoming_data_cb,
         Effect.mqtt_subscribe (lit "PW/V2/CIAA_NXP/RQ/#") 0
           Callback.mqtt_sub_request_cb]) = K.ERR_OK
    · simp [connectionCbEffects, mqtt_connection_cb, emit, hst, herr, sends, sentBy,
        subscribes, isSubscribe, resets, connectAttempts, isConnect]
    · simp [connectionCbEffects, mqtt_connection_cb, emit, hst, herr, sends, sentBy,
        subscribes, isSubscribe, resets, connectAttempts, isConnect]
  · simp [connectionCbEffects, mqtt_connection_cb, emit, hst, sends, sentBy,
      subscribes, isSubscribe, resets, connectAttempts, isConnect]

/-- C14 at a concrete input: accepted (status 0) while the engine refuses the
subscription: the event 0 is still pushed, after one `mqtt_subscribe`. -/
theorem C14_connection_cb_pushes_status_witness :
    sends (connectionCbEffects lwipConsts refusingEnv 0 World.init) = [0] ∧
    subscribes (connectionCbEffects lwipConsts refusingEnv 0 World.init) = 1 :=
  have h := C14_connection_cb_pushes_status lwipConsts refusingEnv 0 World.init rfl
  ⟨h.1, h.2.2.1⟩

/-! ## A connect attempt the engine refuses at once -/

/-- C15: in a running system, a pass through `MQTT_IS_CONNECTING` with the counter below
the bound in which `mqtt_client_connect` returns a result other than `ERR_OK`: the
effects are the deletion of the held handle (if any), the connect call and the `printf`
of the result, nothing else; the state stays `MQTT_IS_CONNECTING`, the counter keeps
its incremented value, nothing is pushed onto the queue and there is no reset. -/
theorem C15_connect_failure_stays_connecting (K : Consts) (env : Env)
    (sw : Supervisor × World) (hrun : sw.2.halted = false)
    (hst : sw.1.mqttConnState = mqttConnState_t.MQTT_IS_CONNECTING)
    (hlt : sw.1.numConnectTries < K.MAX_CONNECT_TRIES)
    (herr : env.mqtt_client_connect (sw.2.trace ++ heldDelete sw.1 ++ [connectCall])
      ≠ K.ERR_OK) :
    loop_switch K env sw =
      (⟨sw.1.mqtt_client_test_handler, mqttConnState_t.MQTT_IS_CONNECTING,
          (sw.1.numConnectTries + 1) % 256⟩,
       ⟨sw.2.trace ++ heldDelete sw.1 ++
          [connectCall,
           Effect.printf "mqtt_connect return %d\n"
             [printf_arg.int (env.mqtt_client_connect
               (sw.2.trace ++ heldDelete sw.1 ++ [connectCall]))]], false⟩) ∧
    sends (passEffects K env sw) = [] ∧
    resets (passEffects K env sw) = 0 ∧
    connectAttempts (passEffects K env sw) = 1 := by
  obtain ⟨⟨hd, st, n⟩, ⟨t, hl⟩⟩ := sw
  simp only at hrun hst hlt
  subst hrun hst
  cases hd with
  | none =>
    simp only [heldDelete, List.append_nil, connectCall] at herr
    simp [passEffects, loop_switch, hlt, mqtt_client_do_connect, emit, herr, heldDelete,
      connectCall, sends, sentBy, resets, connectAttempts, isConnect]
  | some h =>
    simp only [heldDelete, connectCall, List.append_assoc, List.singleton_append] at herr
    simp [passEffects, loop_switch, hlt, mqtt_client_do_connect, emit, herr, heldDelete,
      connectCall, sends, sentBy, resets, connectAttempts, isConnect]

/-- C15 at a concrete input: the first pass of the loop while the engine refuses the
connect: the counter goes to 1, the state stays `MQTT_IS_CONNECTING`, no reset. -/
theorem C15_connect_failure_stays_connecting_witness :
    loop_switch lwipConsts refusingEnv (loopEntry 1) =
      (⟨none, mqttConnState_t.MQTT_IS_CONNECTING, 1⟩,
       ⟨[Effect.xQueueCreate 4, Effect.mqtt_client_new (some 1), connectCall,
          Effect.printf "mqtt_connect return %d\n" [printf_arg.int (-4)]], false⟩) :=
  (C15_connect_failure_stays_connecting lwipConsts refusingEnv (loopEntry 1) rfl rfl
    (by decide) (by decide)).1

/-! ## The pass after an accepted event, again -/

/-- C16: in a running system, whatever the locals are when `MQTT_CONNECT_ACCEPTED` is
popped, the loop pass that follows calls `sys_thread_new` for `mqtt_client_test_thread`
exactly once and does nothing else (no connect attempt, no `vTaskDelete`, no reset), and
stores the handle returned in `mqtt_client_test_handler`; when the call returns a task,
that task is the one publisher the pass adds to those live. -/
theorem C16_accept_spawns_one_publisher (K : Consts) (env : Env) (sw : Supervisor × World)
    (hrun : sw.2.halted = false) :
    passEffects K env (loop_receive K (some K.MQTT_CONNECT_ACCEPTED) sw) =
      [Effect.sys_thread_new "mqtt_client_test_thread" Callback.mqtt_client_test_thread
        (env.sys_thread_new (loop_receive K (some K.MQTT_CONNECT_ACCEPTED) sw).2.trace)] ∧
    (afterAccepted K env sw).1.mqtt_client_test_handler
      = env.sys_thread_new (loop_receive K (some K.MQTT_CONNECT_ACCEPTED) sw).2.trace ∧
    (afterAccepted K env sw).2.trace
      = (loop_receive K (some K.MQTT_CONNECT_ACCEPTED) sw).2.trace ++
        passEffects K env (loop_receive K (some K.MQTT_CONNECT_ACCEPTED) sw) ∧
    connectAttempts (passEffects K env
      (loop_receive K (some K.MQTT_CONNECT_ACCEPTED) sw)) = 0 ∧
    resets (passEffects K env (loop_receive K (some K.MQTT_CONNECT_ACCEPTED) sw)) = 0 ∧
    (afterAccepted K env sw).2.halted = false ∧
    (∀ h, env.sys_thread_new (loop_receive K (some K.MQTT_CONNECT_ACCEPTED) sw).2.trace
        = some h →
      liveTasks (afterAccepted K env sw).2.trace
        = liveTasks (loop_receive K (some K.MQTT_CONNECT_ACCEPTED) sw).2.trace ++ [h]) := by
  have hr := loop_receive_accepted K sw hrun
  have ha := afterAccepted_eq K env sw hrun
  have hp : passEffects K env (loop_receive K (some K.MQTT_CONNECT_ACCEPTED) sw) =
      [Effect.sys_thread_new "mqtt_client_test_thread" Callback.mqtt_client_test_thread
        (env.sys_thread_new
          (loop_receive K (some K.MQTT_CONNECT_ACCEPTED) sw).2.trace)] := by
    unfold passEffects
    rw [hr, switch_connected K env _ rfl rfl]
    simp
  refine ⟨hp, ?_, ?_, ?_, ?_, ?_, ?_⟩
  · rw [ha, hr]
  · rw [hp, ha, hr]
  · rw [hp]; simp [connectAttempts, isConnect]
  · rw [hp]; simp [resets]
  · rw [ha]
  · intro h hh
    rw [ha, hr] at *
    simp only at hh ⊢
    simp [liveTasks, List.foldl_append, hh, liveAfter]

/-- C16 at a concrete input: an accepted event popped in a supervisor that holds handle
4: the pass creates the task with handle 1 and stores it. -/
theorem C16_accept_spawns_one_publisher_witness :
    passEffects lwipConsts okEnv (loop_receive lwipConsts (some 0) holding4) =
      [Effect.sys_thread_new "mqtt_client_test_thread" Callback.mqtt_client_test_thread
        (some 1)] ∧
    (afterAccepted lwipConsts okEnv holding4).1.mqtt_client_test_handler = some 1 :=
  have h := C16_accept_spawns_one_publisher lwipConsts okEnv holding4 rfl
  ⟨h.1, h.2.1⟩

/-! ## The handle after a cancel -/

theorem switch_connecting_keeps_handle (K : Consts) (env : Env) (sw : Supervisor × World)
    (hst : sw.1.mqttConnState = mqttConnState_t.MQTT_IS_CONNECTING) :
    (loop_switch K env sw).1.mqtt_client_test_handler = sw.1.mqtt_client_test_handler := by
  obtain ⟨⟨hd, st, n⟩, w⟩ := sw
  simp only at hst
  subst hst
  unfold loop_switch
  simp only []
  split <;> rfl

/-- C17: a pass through `MQTT_IS_CONNECTING` never changes `mqtt_client_test_handler`, so
the handle stays set after its task is deleted.  In the run on accepted, disconnected,
disconnected (bound 10, every call succeeding) the publisher with handle 4 is created at
position 4 and deleted at position 6 by the first pass through `MQTT_IS_CONNECTING`;
no publisher is live before position 9, where the second pass calls `vTaskDelete` on
handle 4 again; the handle held at the end is still 4. -/
theorem C17_stale_handle_deleted_again :
    (∀ (K : Consts) (env : Env) (sw : Supervisor × World),
      sw.1.mqttConnState = mqttConnState_t.MQTT_IS_CONNECTING →
      (loop_switch K env sw).1.mqtt_client_test_handler
        = sw.1.mqtt_client_test_handler) ∧
    (mqtt_client_connection_thread lwipConsts okEnv (some 1)
      [some 0, some 256, some 256]).2.trace =
      [Effect.xQueueCreate 4, Effect.mqtt_client_new (some 1),
       Effect.mqtt_client_connect (lit "lwip_test") [142, 93, 0, 227] 1883
         Callback.mqtt_connection_cb,
       Effect.xQueueReceive (some 0),
       Effect.sys_thread_new "mqtt_client_test_thread" Callback.mqtt_client_test_thread
         (some 4),
       Effect.xQueueReceive (some 256),
       Effect.vTaskDelete 4,
       Effect.mqtt_client_connect (lit "lwip_test") [142, 93, 0, 227] 1883
         Callback.mqtt_connection_cb,
       Effect.xQueueReceive (some 256),
       Effect.vTaskDelete 4,
       Effect.mqtt_client_connect (lit "lwip_test") [142, 93, 0, 227] 1883
         Callback.mqtt_connection_cb] ∧
    liveTasks ((mqtt_client_connection_thread lwipConsts okEnv (some 1)
      [some 0, some 256, some 256]).2.trace.take 6) = [4] ∧
    liveTasks ((mqtt_client_connection_thread lwipConsts okEnv (some 1)
      [some 0, some 256, some 256]).2.trace.take 9) = [] ∧
    (mqtt_client_connection_thread lwipConsts okEnv (some 1)
      [some 0, some 256, some 256]).1 =
      ⟨some 4, mqttConnState_t.MQTT_IS_CONNECTING, 2⟩ := by
  refine ⟨fun K env sw hst => switch_connecting_keeps_handle K env sw hst, ?_, ?_, ?_, ?_⟩
  · decide
  · decide
  · decide
  · decide

/-! ## `itoa`: the digits -/

theorem tableAt_above : ∀ d : Nat, d < 36 → tableAt (35 + (d : Int)) = digitChar d := by
  decide

theorem tableAt_below : ∀ d : Nat, d < 36 → tableAt (35 - (d : Int)) = digitChar d := by
  decide

theorem itoa_loop_ne_nil (base : Int) (hb : 2 ≤ base) (value : Int) :
    itoa_loop base hb value ≠ [] := by
  rw [itoa_loop]
  split <;> simp

theorem getLast?_cons_of_cons {α : Type} (a : α) (l : List α) (h : l ≠ []) :
    (a :: l).getLast? = l.getLast? := by
  cases l with
  | nil => exact absurd rfl h
  | cons b t => simp [List.getLast?_cons_cons]

theorem itoa_loop_nat (bn : Nat) (hb : 2 ≤ (bn : Int)) (h36 : bn ≤ 36) :
    ∀ n : Nat,
      (itoa_loop bn hb n).map (fun p => tableAt p.index) =
        (if n = 0 then [digitChar 0] else (Nat.digits bn n).map digitChar) ∧
      ∀ p, (itoa_loop bn hb n).getLast? = some p → 0 ≤ p.tmp_value := by
  intro n
  induction n using Nat.strong_induction_on with
  | _ n ih =>
    have hb2 : 2 ≤ bn := by omega
    have hcast : ((n : Int)).tdiv (bn : Int) = ((n / bn : Nat) : Int) :=
      (Int.ofNat_tdiv n bn).symm
    rw [itoa_loop]
    simp only [hcast]
    by_cases hq : n / bn = 0
    · have hlt : n < bn := (Nat.div_eq_zero_iff (by omega : 0 < bn)).mp hq
      have hidx : (35 : Int) + ((n : Int) - 0 * (bn : Int)) = 35 + (n : Int) := by ring
      rw [hq]
      simp only [Nat.cast_zero, ne_eq, not_true_eq_false, dite_false, List.map_cons,
        List.map_nil]
      rw [hidx, tableAt_above n (by omega)]
      constructor
      · by_cases hn : n = 0
        · simp [hn]
        · simp [hn, Nat.digits_of_lt bn n hn hlt]
      · intro p hp
        simp only [List.getLast?_singleton, Option.some.injEq] at hp
        subst hp
        exact Int.ofNat_nonneg n
    · have hpos : 0 < n := by
        rcases Nat.eq_zero_or_pos n with h | h
        · subst h; simp at hq
        · exact h
      have hne : ((n / bn : Nat) : Int) ≠ 0 := by exact_mod_cast hq
      have hdm : (bn : Int) * ((n / bn : Nat) : Int) + ((n % bn : Nat) : Int) = (n : Int) := by
        exact_mod_cast Nat.div_add_mod n bn
      have hidx : (35 : Int) + ((n : Int) - ((n / bn : Nat) : Int) * (bn : Int))
          = 35 + ((n % bn : Nat) : Int) := by linarith
      have hmod : n % bn < 36 := lt_of_lt_of_le (Nat.mod_lt n (by omega)) h36
      obtain ⟨ih1, ih2⟩ := ih (n / bn) (Nat.div_lt_self hpos (by omega))
      rw [dif_pos hne]
      constructor
      · rw [List.map_cons, ih1]
        simp only [hidx, tableAt_above _ hmod, hq, if_false, Nat.pos_iff_ne_zero.mp hpos]
        rw [Nat.digits_def' (by omega) hpos, List.map_cons]
      · intro p hp
        rw [getLast?_cons_of_cons _ _ (itoa_loop_ne_nil _ _ _)] at hp
        exact ih2 p hp

theorem itoa_loop_neg (bn : Nat) (hb : 2 ≤ (bn : Int)) (h36 : bn ≤ 36) :
    ∀ n : Nat, 0 < n →
      (itoa_loop bn hb (-(n : Int))).map (fun p => tableAt p.index) =
        (Nat.digits bn n).map digitChar ∧
      ∀ p, (itoa_loop bn hb (-(n : Int))).getLast? = some p → p.tmp_value < 0 := by
  intro n
  induction n using Nat.strong_induction_on with
  | _ n ih =>
    intro hpos
    have hb2 : 2 ≤ bn := by omega
    have hcast : (-(n : Int)).tdiv (bn : Int) = -((n / bn : Nat) : Int) := by
      rw [Int.neg_tdiv, ← Int.ofNat_tdiv]
    have hdm : (bn : Int) * ((n / bn : Nat) : Int) + ((n % bn : Nat) : Int) = (n : Int) := by
      exact_mod_cast Nat.div_add_mod n bn
    have hidx : (35 : Int) + (-(n : Int) - -((n / bn : Nat) : Int) * (bn : Int))
        = 35 - ((n % bn : Nat) : Int) := by linarith
    have hmod : n % bn < 36 := lt_of_lt_of_le (Nat.mod_lt n (by omega)) h36
    rw [itoa_loop]
    simp only [hcast, hidx, tableAt_below _ hmod]
    by_cases hq : n / bn = 0
    · have hlt : n < bn := (Nat.div_eq_zero_iff (by omega : 0 < bn)).mp hq
      have hn : n ≠ 0 := Nat.pos_iff_ne_zero.mp hpos
      rw [hq]
      simp only [Nat.cast_zero, neg_zero, ne_eq, not_true_eq_false, dite_false,
        List.map_cons, List.map_nil]
      rw [tableAt_below _ hmod]
      constructor
      · rw [Nat.digits_of_lt bn n hn hlt, Nat.mod_eq_of_lt hlt]
        rfl
      · intro p hp
        simp only [List.getLast?_singleton, Option.some.injEq] at hp
        subst hp
        show -(n : Int) < 0
        omega
    · have hne : -((n / bn : Nat) : Int) ≠ 0 := by
        intro hc
        apply hq
        have : ((n / bn : Nat) : Int) = 0 := by linarith
        exact_mod_cast this
      obtain ⟨ih1, ih2⟩ := ih (n / bn) (Nat.div_lt_self hpos (by omega))
        (Nat.pos_of_ne_zero hq)
      rw [dif_pos hne]
      constructor
      · rw [List.map_cons, ih1]
        simp only [hidx, tableAt_below _ hmod]
        rw [Nat.digits_def' (by omega) hpos, List.map_cons]
      · intro p hp
        rw [getLast?_cons_of_cons _ _ (itoa_loop_ne_nil _ _ _)] at hp
        exact ih2 p hp

/-! ## `itoa`: the reversal -/

theorem getD_at_length (a r : List Nat) (x : Nat) : (a ++ x :: r).getD a.length 0 = x := by
  induction a with
  | nil => rfl
  | cons b a ih => simpa using ih

theorem set_at_length (a r : List Nat) (x z : Nat) :
    (a ++ x :: r).set a.length z = a ++ z :: r := by
  induction a with
  | nil => rfl
  | cons b a ih => simp [ih]

theorem itoa_reverse_segment :
    ∀ (k : Nat) (a m c : List Nat), m.length = k →
      itoa_reverse (a ++ m ++ c) a.length (a.length + m.length - 1)
        = a ++ m.reverse ++ c := by
  intro k
  induction k using Nat.strong_induction_on with
  | _ k ih =>
    intro a m c hk
    cases m with
    | nil =>
      rw [itoa_reverse]
      simp
    | cons x m1 =>
      rcases List.eq_nil_or_concat m1 with h1 | ⟨mid, y, h1⟩
      · subst h1
        rw [itoa_reverse]
        simp
      · rw [List.concat_eq_append] at h1
        subst h1
        have hj : a.length + (x :: (mid ++ [y])).length - 1 = (a ++ x :: mid).length := by
          simp
        have hlt : a.length < (a ++ x :: mid).length := by simp
        have e1 : a ++ x :: (mid ++ [y]) ++ c = (a ++ x :: mid) ++ y :: c := by simp
        have e2 : a ++ x :: (mid ++ [y]) ++ c = a ++ x :: (mid ++ y :: c) := by simp
        rw [itoa_reverse, hj, if_pos hlt]
        simp only []
        have g1 : (a ++ x :: (mid ++ [y]) ++ c).getD (a ++ x :: mid).length 0 = y := by
          rw [e1]; exact getD_at_length _ _ _
        have g2 : (a ++ x :: (mid ++ [y]) ++ c).getD a.length 0 = x := by
          rw [e2]; exact getD_at_length _ _ _
        have s1 : (a ++ x :: (mid ++ [y]) ++ c).set (a ++ x :: mid).length x
            = (a ++ x :: mid) ++ x :: c := by
          rw [e1]; exact set_at_length _ _ _ _
        have s2 : ((a ++ x :: mid) ++ x :: c).set a.length y
            = a ++ y :: (mid ++ x :: c) := by
          have : (a ++ x :: mid) ++ x :: c = a ++ x :: (mid ++ x :: c) := by simp
          rw [this]; exact set_at_length _ _ _ _
        rw [g1, g2, s1, s2]
        have e3 : a ++ y :: (mid ++ x :: c) = (a ++ [y]) ++ mid ++ (x :: c) := by simp
        have hi : a.length + 1 = (a ++ [y]).length := by simp
        have hj2 : (a ++ x :: mid).length - 1 = (a ++ [y]).length + mid.length - 1 := by
          simp
        rw [e3, hi, hj2, ih mid.length (by simp at hk; omega) (a ++ [y]) mid (x :: c) rfl]
        simp

/-! ## `itoa`: the string written -/

theorem itoa_reverse_all (chars : List Nat) :
    itoa_reverse (chars ++ [0]) 0 ((chars ++ [0]).length - 2) = chars.reverse ++ [0] := by
  have h := itoa_reverse_segment chars.length [] chars [0] rfl
  simp only [List.nil_append, List.length_nil, Nat.zero_add] at h
  have hl : (chars ++ [0]).length - 2 = chars.length - 1 := by simp
  rw [hl]
  exact h

theorem itoa_eq_text (v : Int) (bn : Nat) (h2 : 2 ≤ bn) (h36 : bn ≤ 36) :
    itoa v (bn : Int) = ⟨itoaText v bn ++ [0], 0⟩ := by
  have hb : 2 ≤ (bn : Int) := by exact_mod_cast h2
  have hnot : ¬ ((bn : Int) < 2 ∨ (bn : Int) > 36) := by
    have : (bn : Int) ≤ 36 := by exact_mod_cast h36
    omega
  obtain ⟨p, hp⟩ : ∃ p, (itoa_loop bn hb v).getLast? = some p := by
    cases hl : (itoa_loop bn hb v).getLast? with
    | none => exact absurd (List.getLast?_eq_none_iff.mp hl) (itoa_loop_ne_nil _ _ _)
    | some p => exact ⟨p, rfl⟩
  unfold itoa
  rw [dif_neg hnot]
  simp only [hp, Option.map_some', Option.getD_some]
  rcases Int.lt_or_le v 0 with hneg | hnn
  · obtain ⟨n, hn⟩ : ∃ n : Nat, v = -(n : Int) := ⟨v.natAbs, by omega⟩
    have hpos : 0 < n := by omega
    subst hn
    obtain ⟨h1, hsign⟩ := itoa_loop_neg bn hb h36 n hpos
    have hs : p.tmp_value < 0 := hsign p hp
    rw [if_pos hs, h1, itoa_reverse_all]
    have hne : ¬ (-(n : Int) = 0) := by omega
    simp [itoaText, hneg, hne, List.map_reverse]
  · obtain ⟨n, hn⟩ : ∃ n : Nat, v = (n : Int) := ⟨v.natAbs, by omega⟩
    subst hn
    obtain ⟨h1, hsign⟩ := itoa_loop_nat bn hb h36 n
    have hs : ¬ p.tmp_value < 0 := not_lt.mpr (hsign p hp)
    rw [if_neg hs, h1, itoa_reverse_all]
    have hn0 : ¬ ((n : Int) < 0) := by omega
    by_cases hz : n = 0
    · subst hz
      simp [itoaText]
    · have hz2 : ¬ ((n : Int) = 0) := by exact_mod_cast hz
      simp [itoaText, hn0, hz, hz2, List.map_reverse]

/-! ## `itoa`: reading the string back -/

theorem digitValue_digitChar : ∀ d : Nat, d < 36 → digitValue (digitChar d) = d := by
  decide

theorem digitChar_ne_minus : ∀ d : Nat, d < 36 → digitChar d ≠ '-'.toNat := by
  decide

theorem digitChar_ne_zero : ∀ d : Nat, d < 36 → digitChar d ≠ 0 := by
  decide

theorem digitChar_ne_char_zero : ∀ d : Nat, d < 36 → d ≠ 0 → digitChar d ≠ '0'.toNat := by
  decide

theorem parseNat_digits (bn : Nat) (L : List Nat) (hL : ∀ d ∈ L, d < 36) :
    parseNat bn (L.reverse.map digitChar) = Nat.ofDigits bn L := by
  induction L with
  | nil => simp [parseNat]
  | cons d t ih =>
    have ht := ih (fun x hx => hL x (List.mem_cons_of_mem _ hx))
    have hd := digitValue_digitChar d (hL d (List.mem_cons_self _ _))
    simp only [parseNat] at ht ⊢
    simp only [List.reverse_cons, List.map_append, List.map_cons, List.map_nil,
      List.foldl_append, List.foldl_cons, List.foldl_nil, ht, hd, Nat.ofDigits_cons]
    ring

theorem parseInt_unsigned (bn : Nat) (cs : List Nat) (h : ∀ c ∈ cs, c ≠ '-'.toNat) :
    parseInt bn cs = ((parseNat bn cs : Nat) : Int) := by
  cases cs with
  | nil => simp [parseInt, parseNat]
  | cons c rest =>
    have hc : c ≠ '-'.toNat := h c (List.mem_cons_self _ _)
    simp only [parseInt, hc, if_false]

theorem digits_text_facts (bn n : Nat) (h2 : 2 ≤ bn) (h36 : bn ≤ 36) :
    (∀ c ∈ (Nat.digits bn n).reverse.map digitChar, c ≠ '-'.toNat ∧ c ≠ 0) ∧
    parseNat bn ((Nat.digits bn n).reverse.map digitChar) = n := by
  have hlt : ∀ d ∈ Nat.digits bn n, d < 36 := fun d hd =>
    lt_of_lt_of_le (Nat.digits_lt_base (by omega) hd) h36
  constructor
  · intro c hc
    obtain ⟨d, hd, rfl⟩ := List.mem_map.mp hc
    have hd2 := hlt d (List.mem_reverse.mp hd)
    exact ⟨digitChar_ne_minus d hd2, digitChar_ne_zero d hd2⟩
  · rw [parseNat_digits bn _ hlt, Nat.ofDigits_digits]

theorem itoaText_facts (v : Int) (bn : Nat) (h2 : 2 ≤ bn) (h36 : bn ≤ 36) :
    (∀ c ∈ itoaText v bn, c ≠ 0) ∧ parseInt bn (itoaText v bn) = v := by
  obtain ⟨hch, hparse⟩ := digits_text_facts bn v.natAbs h2 h36
  rcases Int.lt_or_le v 0 with hneg | hnn
  · have hne : ¬ (v = 0) := by omega
    have ht : itoaText v bn = '-'.toNat :: (Nat.digits bn v.natAbs).reverse.map digitChar := by
      simp [itoaText, hneg, hne]
    rw [ht]
    constructor
    · intro c hc
      rcases List.mem_cons.mp hc with h | h
      · rw [h]; decide
      · exact (hch c h).2
    · simp only [parseInt, if_true, hparse]
      omega
  · have hn : ¬ (v < 0) := by omega
    by_cases hz : v = 0
    · subst hz
      constructor
      · intro c hc
        have : c = digitChar 0 := by simpa [itoaText] using hc
        rw [this]; decide
      · have : itoaText 0 bn = [digitChar 0] := by simp [itoaText]
        rw [this]
        simp [parseInt, parseNat, digitChar, digitValue]
    · have ht : itoaText v bn = (Nat.digits bn v.natAbs).reverse.map digitChar := by
        simp [itoaText, hn, hz]
      rw [ht]
      constructor
      · intro c hc
        exact (hch c hc).2
      · rw [parseInt_unsigned bn _ (fun c hc => (hch c hc).1), hparse]
        omega

theorem leading_digit_ne_zero (bn n : Nat) (h2 : 2 ≤ bn) (h36 : bn ≤ 36) (hn : n ≠ 0) :
    ∀ c, ((Nat.digits bn n).reverse.map digitChar).head? = some c → c ≠ '0'.toNat := by
  intro c hc
  have hne : Nat.digits bn n ≠ [] := by
    intro h
    exact (Nat.digits_ne_nil_iff_ne_zero (b := bn)).mpr hn h
  rw [List.head?_map, List.head?_reverse, List.getLast?_eq_getLast _ hne] at hc
  simp only [Option.map_some', Option.some.injEq] at hc
  subst hc
  have hmem : (Nat.digits bn n).getLast hne ∈ Nat.digits bn n := List.getLast_mem hne
  exact digitChar_ne_char_zero _
    (lt_of_lt_of_le (Nat.digits_lt_base (by omega) hmem) h36)
    (Nat.getLast_digit_ne_zero bn hn)

/-- C18: for every value `v` (so for every 32-bit value, `INT_MIN` included) and every
base `b` with `2 ≤ b ≤ 36`, `itoa` writes the string of `v` in base `b` followed by the
terminator, and returns the buffer it was given: `'-'` when `v < 0`, then the digits of
`|v|`, most significant first, "0" for zero, letters in lowercase.  The string has no
zero byte before the terminator, its first digit is not `'0'` unless `v = 0`, and
parsing it in base `b` gives `v` back.  For a base outside `[2, 36]` it writes the empty
string and returns the buffer.  The integer arithmetic of the embedding is exact; for a
32-bit value it agrees with C's because no step leaves the 32-bit range. -/
theorem C18_itoa_writes_number (v b : Int) :
    (2 ≤ b → b ≤ 36 →
      itoa v b = ⟨itoaText v b.toNat ++ [0], 0⟩ ∧
      (∀ c ∈ itoaText v b.toNat, c ≠ 0) ∧
      parseInt b.toNat (itoaText v b.toNat) = v ∧
      (v ≠ 0 → ∀ c, ((Nat.digits b.toNat v.natAbs).reverse.map digitChar).head? = some c →
        c ≠ '0'.toNat)) ∧
    ((b < 2 ∨ 36 < b) → itoa v b = ⟨[0], 0⟩) := by
  constructor
  · intro h2 h36
    have hcast : ((b.toNat : Nat) : Int) = b := Int.toNat_of_nonneg (by omega)
    have hn2 : 2 ≤ b.toNat := by omega
    have hn36 : b.toNat ≤ 36 := by omega
    have he := itoa_eq_text v b.toNat hn2 hn36
    rw [hcast] at he
    obtain ⟨hz, hp⟩ := itoaText_facts v b.toNat hn2 hn36
    refine ⟨he, hz, hp, fun hv => ?_⟩
    exact leading_digit_ne_zero b.toNat v.natAbs hn2 hn36 (by omega)
  · intro hbad
    have hbad2 : b < 2 ∨ b > 36 := by omega
    unfold itoa
    rw [dif_pos hbad2]

/-- C18 at concrete inputs: -255 in base 16 is written as "-ff", `INT_MIN` in base 10 as
"-2147483648", and base 37 gives the empty string. -/
theorem C18_itoa_writes_number_witness :
    itoa (-255) 16 = ⟨lit "-ff", 0⟩ ∧
    itoa INT_MIN 10 = ⟨lit "-2147483648", 0⟩ ∧
    itoa 5 37 = ⟨[0], 0⟩ := by
  refine ⟨?_, ?_, ?_⟩
  · rw [((C18_itoa_writes_number (-255) 16).1 (by decide) (by decide)).1]
    have hd : Nat.digits (16 : Int).toNat (-255 : Int).natAbs = [15, 15] := by
      rw [show (16 : Int).toNat = 16 from rfl, show (-255 : Int).natAbs = 255 from rfl]
      norm_num
    unfold itoaText
    rw [hd]
    decide
  · rw [((C18_itoa_writes_number INT_MIN 10).1 (by decide) (by decide)).1]
    have hd : Nat.digits (10 : Int).toNat INT_MIN.natAbs = [8, 4, 6, 3, 8, 4, 7, 4, 1, 2] := by
      rw [show (10 : Int).toNat = 10 from rfl, show INT_MIN.natAbs = 2147483648 from rfl]
      norm_num
    unfold itoaText
    rw [hd]
    decide
  · exact (C18_itoa_writes_number 5 37).2 (by decide)

/-! ## `itoa`: the passes of the digit loop -/

/-- The arithmetic of one pass of the digit loop, for a base that passed the check: the
remainder `tmp_value - value * base` lies strictly between `-base` and `base`, and the
quotient and the product lie between 0 and `tmp_value`. -/
theorem itoa_pass_arith (tmp b : Int) (h2 : 2 ≤ b) :
    -b < tmp - tmp.tdiv b * b ∧ tmp - tmp.tdiv b * b < b ∧
    (0 ≤ tmp → 0 ≤ tmp.tdiv b ∧ tmp.tdiv b ≤ tmp ∧ 0 ≤ tmp.tdiv b * b ∧
      tmp.tdiv b * b ≤ tmp) ∧
    (tmp ≤ 0 → tmp ≤ tmp.tdiv b ∧ tmp.tdiv b ≤ 0 ∧ tmp ≤ tmp.tdiv b * b ∧
      tmp.tdiv b * b ≤ 0) := by
  obtain ⟨bn, hbn⟩ : ∃ bn : Nat, b = (bn : Int) := ⟨b.toNat, (Int.toNat_of_nonneg (by omega)).symm⟩
  subst hbn
  have hb2 : 2 ≤ bn := by omega
  have key : ∀ n : Nat,
      (bn : Int) * ((n / bn : Nat) : Int) + ((n % bn : Nat) : Int) = (n : Int) ∧
      ((n % bn : Nat) : Int) < (bn : Int) ∧ (0 : Int) ≤ ((n % bn : Nat) : Int) ∧
      (0 : Int) ≤ ((n / bn : Nat) : Int) ∧ ((n / bn : Nat) : Int) ≤ (n : Int) := by
    intro n
    refine ⟨by exact_mod_cast Nat.div_add_mod n bn, ?_, ?_, ?_, ?_⟩
    · exact_mod_cast Nat.mod_lt n (by omega)
    · exact Int.ofNat_nonneg _
    · exact Int.ofNat_nonneg _
    · exact_mod_cast Nat.div_le_self n bn
  rcases Int.lt_or_le tmp 0 with hneg | hnn
  · obtain ⟨n, hn⟩ : ∃ n : Nat, tmp = -(n : Int) := ⟨tmp.natAbs, by omega⟩
    subst hn
    have hq : (-(n : Int)).tdiv (bn : Int) = -((n / bn : Nat) : Int) := by
      rw [Int.neg_tdiv, ← Int.ofNat_tdiv]
    obtain ⟨k1, k2, k3, k4, k5⟩ := key n
    rw [hq]
    refine ⟨by linarith, by linarith, fun h0 => ?_, fun _ => ?_⟩
    · exact absurd h0 (by omega)
    · refine ⟨by linarith, by linarith, by linarith, ?_⟩
      have : 0 ≤ ((n / bn : Nat) : Int) * (bn : Int) := mul_nonneg k4 (by omega)
      linarith
  · obtain ⟨n, hn⟩ : ∃ n : Nat, tmp = (n : Int) := ⟨tmp.natAbs, by omega⟩
    subst hn
    have hq : ((n : Int)).tdiv (bn : Int) = ((n / bn : Nat) : Int) :=
      (Int.ofNat_tdiv n bn).symm
    obtain ⟨k1, k2, k3, k4, k5⟩ := key n
    rw [hq]
    have hprod : 0 ≤ ((n / bn : Nat) : Int) * (bn : Int) := mul_nonneg k4 (by omega)
    refine ⟨by linarith, by linarith, fun _ => ?_, fun h0 => ?_⟩
    · exact ⟨k4, k5, hprod, by linarith⟩
    · have hn0 : n = 0 := by omega
      subst hn0
      simp

theorem itoa_loop_passes (base : Int) (hb : 2 ≤ base) :
    ∀ (k : Nat) (v : Int), v.natAbs = k →
      ∀ p ∈ itoa_loop base hb v,
        p.value = p.tmp_value.tdiv base ∧
        p.index = 35 + (p.tmp_value - p.value * base) ∧
        (0 ≤ v → 0 ≤ p.tmp_value ∧ p.tmp_value ≤ v) ∧
        (v ≤ 0 → v ≤ p.tmp_value ∧ p.tmp_value ≤ 0) := by
  intro k
  induction k using Nat.strong_induction_on with
  | _ k ih =>
    intro v hk p hp
    rw [itoa_loop] at hp
    by_cases hq : v.tdiv base = 0
    · rw [dif_neg (by simpa using hq)] at hp
      simp only [List.mem_singleton] at hp
      subst hp
      exact ⟨rfl, rfl, fun h => ⟨h, le_refl _⟩, fun h => ⟨le_refl _, h⟩⟩
    · rw [dif_pos hq] at hp
      rcases List.mem_cons.mp hp with h | h
      · subst h
        exact ⟨rfl, rfl, fun h => ⟨h, le_refl _⟩, fun h => ⟨le_refl _, h⟩⟩
      · have hv : 0 < v.natAbs := by
          rcases Nat.eq_zero_or_pos v.natAbs with h0 | h0
          · have hz : v = 0 := Int.natAbs_eq_zero.mp h0
            exact absurd (by rw [hz]; exact Int.zero_tdiv base) hq
          · exact h0
        have hlt : (v.tdiv base).natAbs < v.natAbs := by
          rw [Int.natAbs_tdiv]
          exact Nat.div_lt_self hv (by omega)
        obtain ⟨h1, h2, h3, h4⟩ := ih _ (by rw [← hk]; exact hlt) (v.tdiv base) rfl p h
        obtain ⟨-, -, a3, a4⟩ := itoa_pass_arith v base hb
        refine ⟨h1, h2, fun h0 => ?_, fun h0 => ?_⟩
        · obtain ⟨q0, q1, -, -⟩ := a3 h0
          obtain ⟨t0, t1⟩ := h3 q0
          exact ⟨t0, le_trans t1 q1⟩
        · obtain ⟨q0, q1, -, -⟩ := a4 h0
          obtain ⟨t0, t1⟩ := h4 q1
          exact ⟨le_trans q0 t0, t1⟩

theorem digits_length_le (bn n : Nat) (h2 : 2 ≤ bn) (hn : n ≤ 2147483648) :
    (Nat.digits bn n).length ≤ 32 := by
  by_cases h0 : n = 0
  · subst h0; simp
  · by_contra hc
    have h33 : 33 ≤ (Nat.digits bn n).length := by omega
    have hle := Nat.base_pow_length_digits_le bn n (by omega) h0
    have h1 : bn ^ 33 ≤ bn ^ (Nat.digits bn n).length :=
      Nat.pow_le_pow_right (by omega) h33
    have h2' : 2 ^ 32 ≤ bn ^ 32 := Nat.pow_le_pow_left h2 32
    have h3 : bn ^ 33 = bn * bn ^ 32 := by ring
    have h4 : bn * bn ^ 32 ≤ bn * n := by rw [← h3]; exact le_trans h1 hle
    have h5 : bn ^ 32 ≤ n := Nat.le_of_mul_le_mul_left h4 (by omega)
    have h6 : (2 : Nat) ^ 32 = 4294967296 := by norm_num
    omega

theorem itoa_loop_length (v : Int) (bn : Nat) (hb : 2 ≤ (bn : Int)) (h36 : bn ≤ 36) :
    (itoa_loop bn hb v).length =
      if v = 0 then 1 else (Nat.digits bn v.natAbs).length := by
  have hlen : (itoa_loop bn hb v).length
      = ((itoa_loop bn hb v).map (fun p => tableAt p.index)).length := by simp
  rw [hlen]
  rcases Int.lt_or_le v 0 with hneg | hnn
  · obtain ⟨n, hn⟩ : ∃ n : Nat, v = -(n : Int) := ⟨v.natAbs, by omega⟩
    have hpos : 0 < n := by omega
    subst hn
    rw [(itoa_loop_neg bn hb h36 n hpos).1]
    have hne : ¬ (-(n : Int) = 0) := by omega
    simp [hne]
  · obtain ⟨n, hn⟩ : ∃ n : Nat, v = (n : Int) := ⟨v.natAbs, by omega⟩
    subst hn
    rw [(itoa_loop_nat bn hb h36 n).1]
    by_cases hz : n = 0
    · simp [hz]
    · have hz2 : ¬ ((n : Int) = 0) := by exact_mod_cast hz
      simp [hz, hz2]

/-- C19: for every 32-bit value `v` and every base `b` with `2 ≤ b ≤ 36`, the digit loop
of `itoa` makes at least one and at most 32 passes, and in every pass `value` is the
truncated quotient `tmp_value / base`, the lookup index is
`35 + (tmp_value - value * base)` and lies in `[0, 70]`, inside the 71 characters of the
digit table, and `tmp_value`, the quotient, the product `value * base` and the
difference all fit a 32-bit `int`, so no step of the C arithmetic overflows. -/
theorem C19_digit_index_in_table (v b : Int) (hv : inInt32 v) (h2 : 2 ≤ b) (h36 : b ≤ 36) :
    (∀ p ∈ itoa_loop b h2 v,
      p.value = p.tmp_value.tdiv b ∧
      p.index = 35 + (p.tmp_value - p.value * b) ∧
      0 ≤ p.index ∧ p.index ≤ 70 ∧ p.index.toNat < digitTable.length ∧
      inInt32 p.tmp_value ∧ inInt32 p.value ∧ inInt32 (p.value * b) ∧
      inInt32 (p.tmp_value - p.value * b)) ∧
    1 ≤ (itoa_loop b h2 v).length ∧ (itoa_loop b h2 v).length ≤ 32 ∧
    digitTable.length = 71 := by
  obtain ⟨hlo, hhi⟩ := hv
  simp only [INT_MIN, INT_MAX] at hlo hhi
  have htab : digitTable.length = 71 := by decide
  refine ⟨?_, ?_, ?_, htab⟩
  · intro p hp
    obtain ⟨e1, e2, s1, s2⟩ := itoa_loop_passes b h2 v.natAbs v rfl p hp
    obtain ⟨a1, a2, a3, a4⟩ := itoa_pass_arith p.tmp_value b h2
    rw [← e1] at a1 a2 a3 a4
    have hidx0 : 0 ≤ p.index := by rw [e2]; omega
    have hidx70 : p.index ≤ 70 := by rw [e2]; omega
    refine ⟨e1, e2, hidx0, hidx70, by rw [htab]; omega, ?_⟩
    simp only [inInt32, INT_MIN, INT_MAX]
    rcases Int.lt_or_le v 0 with hneg | hnn
    · obtain ⟨t0, t1⟩ := s2 (by omega)
      obtain ⟨q0, q1, q2, q3⟩ := a4 t1
      refine ⟨⟨by omega, by omega⟩, ⟨by omega, by omega⟩, ⟨by omega, by omega⟩,
        ⟨by omega, by omega⟩⟩
    · obtain ⟨t0, t1⟩ := s1 hnn
      obtain ⟨q0, q1, q2, q3⟩ := a3 t0
      refine ⟨⟨by omega, by omega⟩, ⟨by omega, by omega⟩, ⟨by omega, by omega⟩,
        ⟨by omega, by omega⟩⟩
  · exact Nat.one_le_iff_ne_zero.mpr (fun h =>
      itoa_loop_ne_nil b h2 v (List.length_eq_zero.mp h))
  · have hcast : ((b.toNat : Nat) : Int) = b := Int.toNat_of_nonneg (by omega)
    have hb' : 2 ≤ ((b.toNat : Nat) : Int) := by rw [hcast]; exact h2
    have hl := itoa_loop_length v b.toNat hb' (by omega)
    have hrw : itoa_loop b h2 v = itoa_loop ((b.toNat : Nat) : Int) hb' v := by
      congr 1
      exact hcast.symm
    rw [hrw, hl]
    split
    · omega
    · exact digits_length_le b.toNat v.natAbs (by omega) (by omega)

/-- C19 at a concrete input: `INT_MIN` in base 36. -/
theorem C19_digit_index_in_table_witness :
    (∀ p ∈ itoa_loop 36 (by decide) INT_MIN, 0 ≤ p.index ∧ p.index ≤ 70) ∧
    (itoa_loop 36 (by decide) INT_MIN).length ≤ 32 :=
  have h := C19_digit_index_in_table INT_MIN 36 (by decide) (by decide) (by decide)
  ⟨fun p hp => ⟨(h.1 p hp).2.2.1, (h.1 p hp).2.2.2.1⟩, h.2.2.1⟩

end MqttClient
